import Mathlib

/-!
A shallow embedding of `src/inya_cli/cli.py` (pale-court/inya-cli), the
dedup-and-materialize pipeline of the `stage` entry point, together with
theorems checking the natural-language specification against it.

Modelling conventions:
* paths and hashes are plain strings (POSIX style, joined with `"/"`);
* file contents are `Bytes := List Nat`;
* the content store is an association list from full store path to bytes
  (a key is present exactly when the file exists);
* the build tree is an association list from link path to the link that
  lives there (hardlink or symlink, with its recorded target);
* Python `dict`s (`from_data`/`from_game`/`from_web`, `path_by_hash`) are
  association lists with Python's update-in-place / append-new semantics;
* external collaborators (`hashlib.sha256`, the filesystem of the game
  directory, `requests.get`) are passed in as function parameters;
* a raised Python exception is modelled as an error outcome carrying the
  state of the world at the moment of the raise.
-/

/-- File contents are modelled as lists of bytes. -/
abbrev Bytes := List Nat

/-- A JSON scalar value as it occurs in the ndjson manifest lines. -/
inductive JVal
  | jstr : String → JVal
  | jnum : Int → JVal
  deriving DecidableEq, Repr

/-- A decoded JSON object: an association list of field name to value. -/
abbrev JObj := List (String × JVal)

/-- Association-list lookup, modelling Python `dict` lookup / `in`. -/
def alookup {β : Type} : List (String × β) → String → Option β
  | [], _ => none
  | (k, v) :: rest, key => if key = k then some v else alookup rest key

/-- Association-list insertion with Python `dict` semantics: an existing
key is updated in place, a new key is appended at the end. -/
def ainsert {β : Type} : List (String × β) → String → β → List (String × β)
  | [], key, v => [(key, v)]
  | (k, v') :: rest, key, v =>
    if key = k then (key, v) :: rest else (k, v') :: ainsert rest key v

/-- The values of a Python dict, in insertion order (`dict.values()`). -/
def dictValues {β : Type} (d : List (String × β)) : List β := d.map Prod.snd

/-- The exceptions the pipeline can raise.  `manifestFormatError` stands
for the exception raised when a manifest line lacks a usable `path`,
`sha256` or `size` field (`KeyError` / `TypeError` in the Python code);
`filesystemError` stands for an `OSError` from a file read or a link
creation. -/
inductive PipelineError
  | manifestFormatError
  | filesystemError
  deriving DecidableEq, Repr

/-- `StageArgs` of `cli.py` (the command-line arguments). -/
structure StageArgs where
  remote_url : String
  root : String
  build : Nat
  game_root : Option String
  deriving DecidableEq, Repr

/-- `data_dir = args.root / "storage/data"`. -/
def dataDir (root : String) : String := root ++ "/storage/data"

/-- The store path of a hash: `data_dir / f"\x7bsha256[:2]\x7d/\x7bsha256\x7d.bin"`. -/
def targetName (root : String) (sha : String) : String :=
  dataDir root ++ "/" ++ sha.take 2 ++ "/" ++ sha ++ ".bin"

/-- `build_dir = args.root / f"build/\x7bargs.build\x7d"`. -/
def buildDir (root : String) (build : Nat) : String :=
  root ++ "/build/" ++ toString build

/-- The link path of a manifest entry: `build_dir / path`. -/
def linkName (root : String) (build : Nat) (path : String) : String :=
  buildDir root build ++ "/" ++ path

/-- The content store: full store path ↦ contents of the `.bin` file. -/
abbrev Store := List (String × Bytes)

/-- `targetname.exists()` for a store path. -/
def Store.has (st : Store) (p : String) : Bool := (alookup st p).isSome

/-- Writing a store file (the body of an `atomicwrites.atomic_write`). -/
def Store.write (st : Store) (p : String) (b : Bytes) : Store := ainsert st p b

/-- The `SteamHashes` class: game directory plus the reverse index
`path_by_hash` from content hash to game-dir-relative path. -/
structure SteamHashes where
  game_dir : String
  path_by_hash : List (String × String)
  deriving DecidableEq, Repr

/-- `SteamHashes.__init__`: walk the files under `game_dir / "Bundles2"`
(given as the list `walk` of (relative path, contents) pairs in walk
order), hash each file with `hashFn` (standing for `hashlib.sha256
(...).hexdigest()`) and record `path_by_hash[digest] = rel_path`; a later
file with the same digest overwrites an earlier one. -/
def steamHashesInit (hashFn : Bytes → String) (game_dir : String)
    (walk : List (String × Bytes)) : SteamHashes :=
  { game_dir := game_dir
    path_by_hash := walk.foldl (fun m pb => ainsert m (hashFn pb.2) pb.1) [] }

/-- A filtered manifest entry as built in the enumeration loop (the dict
`e` with keys `path`, `sha256`, `size`, `target`). -/
structure Entry where
  path : String
  sha256 : String
  size : JVal
  target : String
  deriving DecidableEq, Repr

/-- Python `str.startswith`, modelled at the character level
(`String.startsWith` itself does not reduce in the kernel). -/
def strStartsWith (s pre : String) : Bool := pre.data.isPrefixOf s.data

/-- One iteration of the enumeration loop, up to the classification:
`entry["path"]` (a missing or non-string field raises), the
`startswith("Bundles2")` filter (a filtered-out line is skipped with no
further field access), then `entry["sha256"]` (must be a string, since it
is sliced) and `entry["size"]` (any value, only stored). -/
def decodeLine (root : String) (obj : JObj) : Except PipelineError (Option Entry) :=
  match alookup obj "path" with
  | some (JVal.jstr path) =>
    if strStartsWith path "Bundles2" then
      match alookup obj "sha256" with
      | some (JVal.jstr sha) =>
        match alookup obj "size" with
        | some size =>
          Except.ok (some { path := path, sha256 := sha, size := size,
                            target := targetName root sha })
        | none => Except.error PipelineError.manifestFormatError
      | _ => Except.error PipelineError.manifestFormatError
    else Except.ok none
  | _ => Except.error PipelineError.manifestFormatError

/-- The decoding side of the enumeration loop over `ndjson.reader(fh)`:
the list `entries` of filtered entries in manifest order, or the error
raised at the first bad line. -/
def readEntries (root : String) : List JObj → Except PipelineError (List Entry)
  | [] => Except.ok []
  | obj :: rest =>
    match decodeLine root obj with
    | Except.error err => Except.error err
    | Except.ok none => readEntries root rest
    | Except.ok (some e) =>
      match readEntries root rest with
      | Except.error err => Except.error err
      | Except.ok es => Except.ok (e :: es)

/-- The three-way source classification of an entry. -/
inductive SourceClass
  | fromData
  | fromGame
  | fromWeb
  deriving DecidableEq, Repr

/-- `game_hashes and e["sha256"] in game_hashes.path_by_hash`. -/
def indexHas (gh : Option SteamHashes) (sha : String) : Bool :=
  match gh with
  | some g => (alookup g.path_by_hash sha).isSome
  | none => false

/-- The classification branch of the enumeration loop:
`if targetname.exists(): ... elif game_hashes and e["sha256"] in
game_hashes.path_by_hash: ... else: ...`. -/
def classify (st : Store) (gh : Option SteamHashes) (e : Entry) : SourceClass :=
  if Store.has st e.target then SourceClass.fromData
  else if indexHas gh e.sha256 then SourceClass.fromGame
  else SourceClass.fromWeb

/-- The three classification dicts, each keyed by the entry's path. -/
structure ClassDicts where
  from_data : List (String × Entry)
  from_game : List (String × Entry)
  from_web : List (String × Entry)
  deriving DecidableEq, Repr

/-- The dict a given class is accumulated into. -/
def ClassDicts.proj (d : ClassDicts) : SourceClass → List (String × Entry)
  | SourceClass.fromData => d.from_data
  | SourceClass.fromGame => d.from_game
  | SourceClass.fromWeb => d.from_web

/-- One classification step: `from_data[path] = e` / `from_game[path] = e`
/ `from_web[path] = e` according to the branch taken. -/
def classifyStep (st : Store) (gh : Option SteamHashes) (d : ClassDicts)
    (e : Entry) : ClassDicts :=
  match classify st gh e with
  | SourceClass.fromData => { d with from_data := ainsert d.from_data e.path e }
  | SourceClass.fromGame => { d with from_game := ainsert d.from_game e.path e }
  | SourceClass.fromWeb => { d with from_web := ainsert d.from_web e.path e }

/-- The classification side of the enumeration loop.  The Python code
decodes and classifies in one pass; splitting the pass is observationally
equivalent because decoding never consults the dicts, classification
never affects decoding, and a decode error discards the partial dicts. -/
def classifyAll (st : Store) (gh : Option SteamHashes) (es : List Entry) : ClassDicts :=
  es.foldl (classifyStep st gh) ⟨[], [], []⟩

/-- The import loop (`Copying data from game dir`): for each entry of
`from_game.values()`, skip if the store file exists, otherwise write the
bytes read from `game_hashes.game_dir / game_hashes.path_by_hash.get(
entry["sha256"])` to the store path.  `readFS` models reading the game
tree at import time; a failed lookup or read is a raised exception, which
stops the loop with the store as mutated so far.  Returns the store, the
list of imported hashes in order, and the error if one was raised. -/
def importLoop (gh : Option SteamHashes) (readFS : String → Option Bytes) :
    List Entry → Store → List String → Store × List String × Option PipelineError
  | [], st, imported => (st, imported, none)
  | e :: rest, st, imported =>
    if Store.has st e.target then importLoop gh readFS rest st imported
    else
      match gh with
      | none => (st, imported, some PipelineError.filesystemError)
      | some g =>
        match alookup g.path_by_hash e.sha256 with
        | none => (st, imported, some PipelineError.filesystemError)
        | some src =>
          match readFS (g.game_dir ++ "/" ++ src) with
          | none => (st, imported, some PipelineError.filesystemError)
          | some b =>
            importLoop gh readFS rest (Store.write st e.target b)
              (imported ++ [e.sha256])

/-- The URL the fetch loop requests for a hash:
`f"\x7bargs.remote_url\x7d/poe-data/\x7bsubdir\x7d/\x7bsha256\x7d.bin"`. -/
def fetchUrl (remote_url : String) (sha : String) : String :=
  remote_url ++ "/poe-data/" ++ sha.take 2 ++ "/" ++ sha ++ ".bin"

/-- Modelled from the spec (section 6, "Remote content object"), for
comparison with `fetchUrl`: `GET <remote>/data/<first-2-hex>/<hash>.bin`. -/
def specDataUrl (remote_url : String) (sha : String) : String :=
  remote_url ++ "/data/" ++ sha.take 2 ++ "/" ++ sha ++ ".bin"

/-- The fetch loop (`Fetching data`): for each entry of
`from_web.values()`, skip if the store file exists, otherwise GET the
remote object and write `resp.content` to the store path.  `remote`
models `sess.get(url).content` (always returning bytes).  Returns the
store and the list of performed requests as (hash, url) pairs. -/
def fetchLoop (remote_url : String) (remote : String → Bytes) :
    List Entry → Store → List (String × String) → Store × List (String × String)
  | [], st, fetched => (st, fetched)
  | e :: rest, st, fetched =>
    if Store.has st e.target then fetchLoop remote_url remote rest st fetched
    else
      fetchLoop remote_url remote rest
        (Store.write st e.target (remote (fetchUrl remote_url e.sha256)))
        (fetched ++ [(e.sha256, fetchUrl remote_url e.sha256)])

/-- The kind of a build-tree link. -/
inductive LinkKind
  | hard
  | sym
  deriving DecidableEq, Repr

/-- A filesystem entry in the build tree: a hardlink or symlink together
with the store path it was created against. -/
structure FsLink where
  kind : LinkKind
  target : String
  deriving DecidableEq, Repr

/-- The build tree: link path ↦ the link living there. -/
abbrev Links := List (String × FsLink)

/-- `linkname.exists()`: follows symlinks, so a hardlink always exists
while a symlink exists only if its target store file does. -/
def linkExists (st : Store) (links : Links) (p : String) : Bool :=
  match alookup links p with
  | some l =>
    match l.kind with
    | LinkKind.hard => true
    | LinkKind.sym => Store.has st l.target
  | none => false

/-- One iteration of the linking loop (`Linking data`).  Hardlink mode:
skip if `linkname.exists()`; otherwise `linkname.hardlink_to(targetname)`,
which raises if a filesystem entry (e.g. a broken symlink) is already at
the link path or if the target store file is missing.  Symlink mode: skip
if `linkname.lstat()` succeeds; otherwise `linkname.symlink_to(targetname)`,
which succeeds whether or not the target exists. -/
def linkStep (should_hardlink : Bool) (root : String) (build : Nat)
    (st : Store) (links : Links) (e : Entry) : Except PipelineError Links :=
  let lname := linkName root build e.path
  let tname := targetName root e.sha256
  if should_hardlink then
    if linkExists st links lname then Except.ok links
    else if (alookup links lname).isSome then
      Except.error PipelineError.filesystemError
    else if Store.has st tname then
      Except.ok (ainsert links lname ⟨LinkKind.hard, tname⟩)
    else Except.error PipelineError.filesystemError
  else
    match alookup links lname with
    | some _ => Except.ok links
    | none => Except.ok (ainsert links lname ⟨LinkKind.sym, tname⟩)

/-- The linking loop over the full entry list; a raised exception stops
the loop with the links created so far. -/
def linkLoop (should_hardlink : Bool) (root : String) (build : Nat)
    (st : Store) : List Entry → Links → Links × Option PipelineError
  | [], links => (links, none)
  | e :: rest, links =>
    match linkStep should_hardlink root build st links e with
    | Except.error err => (links, some err)
    | Except.ok links' => linkLoop should_hardlink root build st rest links'

/-- The mutable state the pipeline touches: store files and build links. -/
structure World where
  store : Store
  links : Links
  deriving DecidableEq, Repr

/-- The observable result of a successful run. -/
structure StageResult where
  world : World
  entries : List Entry
  imported : List String
  fetched : List (String × String)
  deriving DecidableEq, Repr

/-- Outcome of a run: success, or an uncaught exception together with the
state of the world at the moment it was raised. -/
inductive StageOutcome
  | ok (r : StageResult)
  | fail (err : PipelineError) (w : World)
  deriving DecidableEq, Repr

/-- `game_hashes`: built from `SteamHashes(Path(args.game_root))` when a
game root is configured, `None` otherwise. -/
def ghOf (args : StageArgs) (hashFn : Bytes → String)
    (gameWalk : List (String × Bytes)) : Option SteamHashes :=
  args.game_root.map (fun gr => steamHashesInit hashFn gr gameWalk)

/-- The `stage` pipeline from the enumeration loop onward (argument
parsing, the builds/manifest HTTP negotiation and the raw-manifest cache
are external collaborators; `lines` is the decoded ndjson line list).
`hashFn`, `gameWalk` and `readFS` describe the external game tree,
`remote` the content service, `should_hardlink` the platform test
`platform.system() == "Windows"`. -/
def stage (args : StageArgs) (hashFn : Bytes → String)
    (gameWalk : List (String × Bytes)) (readFS : String → Option Bytes)
    (remote : String → Bytes) (should_hardlink : Bool)
    (lines : List JObj) (w : World) : StageOutcome :=
  let gh : Option SteamHashes := ghOf args hashFn gameWalk
  match readEntries args.root lines with
  | Except.error err => StageOutcome.fail err w
  | Except.ok entries =>
    let d := classifyAll w.store gh entries
    match importLoop gh readFS (dictValues d.from_game) w.store [] with
    | (st1, _imported, some err) => StageOutcome.fail err ⟨st1, w.links⟩
    | (st1, imported, none) =>
      let fr := fetchLoop args.remote_url remote (dictValues d.from_web) st1 []
      match linkLoop should_hardlink args.root args.build fr.1 entries w.links with
      | (links1, some err) => StageOutcome.fail err ⟨fr.1, links1⟩
      | (links1, none) =>
        StageOutcome.ok ⟨⟨fr.1, links1⟩, entries, imported, fr.2⟩

/-- A POSIX path is absolute when it begins with a slash. -/
def isAbsolutePath (s : String) : Bool := s.data.head? == some '/'

/-! ### Association-list lemmas -/

theorem alookup_ainsert {β : Type} (m : List (String × β)) (k : String) (v : β)
    (k' : String) :
    alookup (ainsert m k v) k' = if k' = k then some v else alookup m k' := by
  induction m with
  | nil => simp [ainsert, alookup]
  | cons hd tl ih =>
    obtain ⟨k₀, v₀⟩ := hd
    by_cases hk : k = k₀
    · subst hk
      by_cases hk' : k' = k <;> simp [ainsert, alookup, hk']
    · by_cases hk' : k' = k₀
      · subst hk'
        simp [ainsert, alookup, hk, Ne.symm hk]
      · simp [ainsert, alookup, hk, hk', ih]

theorem alookup_ainsert_self {β : Type} (m : List (String × β)) (k : String) (v : β) :
    alookup (ainsert m k v) k = some v := by
  simp [alookup_ainsert]

theorem alookup_ainsert_ne {β : Type} (m : List (String × β)) (k : String) (v : β)
    {k' : String} (h : k' ≠ k) :
    alookup (ainsert m k v) k' = alookup m k' := by
  simp [alookup_ainsert, h]

theorem alookup_ainsert_isSome {β : Type} (m : List (String × β)) (k : String)
    (v : β) {k' : String} (h : (alookup m k').isSome = true) :
    (alookup (ainsert m k v) k').isSome = true := by
  rw [alookup_ainsert]
  by_cases hk : k' = k <;> simp [hk, h]

theorem alookup_mem_values {β : Type} (m : List (String × β)) (k : String) {v : β}
    (h : alookup m k = some v) : v ∈ dictValues m := by
  induction m with
  | nil => simp [alookup] at h
  | cons hd tl ih =>
    obtain ⟨k₀, v₀⟩ := hd
    by_cases hk : k = k₀
    · simp [alookup, hk] at h
      simp [dictValues, h]
    · simp [alookup, hk] at h
      simp [dictValues]
      right
      have := ih h
      simpa [dictValues] using this

theorem mem_values_ainsert {β : Type} (m : List (String × β)) (k : String) (v : β)
    {x : β} (h : x ∈ dictValues (ainsert m k v)) : x = v ∨ x ∈ dictValues m := by
  induction m with
  | nil => simpa [ainsert, dictValues] using h
  | cons hd tl ih =>
    obtain ⟨k₀, v₀⟩ := hd
    by_cases hk : k = k₀
    · simp [ainsert, hk, dictValues] at h
      rcases h with h | h
      · exact Or.inl h
      · exact Or.inr (by simp [dictValues, h])
    · simp [ainsert, hk, dictValues] at h
      rcases h with h | h
      · exact Or.inr (by simp [dictValues, h])
      · rcases ih (by simpa [dictValues] using h) with h' | h'
        · exact Or.inl h'
        · exact Or.inr (by simp [dictValues]; right; simpa [dictValues] using h')

/-! ### Store lemmas -/

theorem Store.has_write (st : Store) (p : String) (b : Bytes) (q : String) :
    Store.has (Store.write st p b) q = if q = p then true else Store.has st q := by
  by_cases h : q = p <;> simp [Store.has, Store.write, alookup_ainsert, h]

theorem Store.has_write_mono (st : Store) (p : String) (b : Bytes) {q : String}
    (h : Store.has st q = true) : Store.has (Store.write st p b) q = true := by
  rw [Store.has_write]
  by_cases hq : q = p <;> simp [hq, h]

theorem Store.has_write_self (st : Store) (p : String) (b : Bytes) :
    Store.has (Store.write st p b) p = true := by
  simp [Store.has_write]

theorem alookup_write_stable (st : Store) (p : String) (b : Bytes) {q : String}
    {c : Bytes} (hq : alookup st q = some c) (hp : Store.has st p = false) :
    alookup (Store.write st p b) q = some c := by
  have hne : q ≠ p := by
    intro h
    subst h
    simp [Store.has, hq] at hp
  rw [Store.write, alookup_ainsert_ne st p b hne]
  exact hq

/-! ### Fetch-loop lemmas -/

theorem fetchLoop_store_mono (u : String) (r : String → Bytes) :
    ∀ (es : List Entry) (st : Store) (f : List (String × String)) {p : String},
      Store.has st p = true → Store.has (fetchLoop u r es st f).1 p = true := by
  intro es
  induction es with
  | nil => intro st f p h; simpa [fetchLoop] using h
  | cons e rest ih =>
    intro st f p h
    by_cases he : Store.has st e.target = true
    · simpa [fetchLoop, he] using ih st f h
    · have he' : Store.has st e.target = false := by simpa using he
      simpa [fetchLoop, he'] using
        ih (Store.write st e.target (r (fetchUrl u e.sha256)))
          (f ++ [(e.sha256, fetchUrl u e.sha256)]) (Store.has_write_mono _ _ _ h)

theorem fetchLoop_complete (u : String) (r : String → Bytes) :
    ∀ (es : List Entry) (st : Store) (f : List (String × String)),
      ∀ e ∈ es, Store.has (fetchLoop u r es st f).1 e.target = true := by
  intro es
  induction es with
  | nil => intro st f e h; simp at h
  | cons e rest ih =>
    intro st f e' he'
    by_cases he : Store.has st e.target = true
    · rcases List.mem_cons.mp he' with h | h
      · rw [h]
        simpa [fetchLoop, he] using fetchLoop_store_mono u r rest st f he
      · simpa [fetchLoop, he] using ih st f e' h
    · have hne : Store.has st e.target = false := by simpa using he
      rcases List.mem_cons.mp he' with h | h
      · rw [h]
        simpa [fetchLoop, hne] using
          fetchLoop_store_mono u r rest _ _ (Store.has_write_self st e.target _)
      · simpa [fetchLoop, hne] using
          ih (Store.write st e.target (r (fetchUrl u e.sha256)))
            (f ++ [(e.sha256, fetchUrl u e.sha256)]) e' h

theorem fetchLoop_content (u : String) (r : String → Bytes) :
    ∀ (es : List Entry) (st : Store) (f : List (String × String)) {p : String}
      {b : Bytes}, alookup st p = some b →
      alookup (fetchLoop u r es st f).1 p = some b := by
  intro es
  induction es with
  | nil => intro st f p b h; simpa [fetchLoop] using h
  | cons e rest ih =>
    intro st f p b h
    by_cases he : Store.has st e.target = true
    · simpa [fetchLoop, he] using ih st f h
    · have hne : Store.has st e.target = false := by simpa using he
      simpa [fetchLoop, hne] using
        ih (Store.write st e.target (r (fetchUrl u e.sha256)))
          (f ++ [(e.sha256, fetchUrl u e.sha256)]) (alookup_write_stable st _ _ h hne)

theorem fetchLoop_prov (u : String) (r : String → Bytes) :
    ∀ (es : List Entry) (st : Store) (f : List (String × String))
      {x : String × String}, x ∈ (fetchLoop u r es st f).2 →
      x ∈ f ∨ ∃ e, e ∈ es ∧ x = (e.sha256, fetchUrl u e.sha256) ∧
        Store.has st e.target = false := by
  intro es
  induction es with
  | nil => intro st f x h; simp [fetchLoop] at h; exact Or.inl h
  | cons e rest ih =>
    intro st f x h
    by_cases he : Store.has st e.target = true
    · rw [show fetchLoop u r (e :: rest) st f = fetchLoop u r rest st f by
        simp [fetchLoop, he]] at h
      rcases ih st f h with h' | ⟨e', he', hx, hs⟩
      · exact Or.inl h'
      · exact Or.inr ⟨e', by simp [he'], hx, hs⟩
    · have hne : Store.has st e.target = false := by simpa using he
      rw [show fetchLoop u r (e :: rest) st f
          = fetchLoop u r rest (Store.write st e.target (r (fetchUrl u e.sha256)))
            (f ++ [(e.sha256, fetchUrl u e.sha256)]) by simp [fetchLoop, hne]] at h
      rcases ih _ _ h with h' | ⟨e', he', hx, hs⟩
      · rcases List.mem_append.mp h' with h'' | h''
        · exact Or.inl h''
        · refine Or.inr ⟨e, by simp, by simpa using h'', hne⟩
      · refine Or.inr ⟨e', by simp [he'], hx, ?_⟩
        by_contra hc
        have : Store.has st e'.target = true := by
          cases hb : Store.has st e'.target
          · exact absurd hb hc
          · rfl
        rw [Store.has_write_mono st e.target _ this] at hs
        exact Bool.noConfusion hs

theorem fetchLoop_noop (u : String) (r : String → Bytes) :
    ∀ (es : List Entry) (st : Store) (f : List (String × String)),
      (∀ e ∈ es, Store.has st e.target = true) →
      fetchLoop u r es st f = (st, f) := by
  intro es
  induction es with
  | nil => intro st f _; simp [fetchLoop]
  | cons e rest ih =>
    intro st f h
    have he := h e (by simp)
    simpa [fetchLoop, he] using ih st f (fun e' h' => h e' (by simp [h']))

theorem fetchLoop_fresh (root u : String) (r : String → Bytes) :
    ∀ (es : List Entry) (st : Store) (f : List (String × String)) (pre : List String),
      (∀ e ∈ es, e.target = targetName root e.sha256) →
      (pre ++ f.map Prod.fst).Nodup →
      (∀ s ∈ pre ++ f.map Prod.fst, Store.has st (targetName root s) = true) →
      (pre ++ (fetchLoop u r es st f).2.map Prod.fst).Nodup ∧
        ∀ s ∈ pre ++ (fetchLoop u r es st f).2.map Prod.fst,
          Store.has (fetchLoop u r es st f).1 (targetName root s) = true := by
  intro es
  induction es with
  | nil => intro st f pre _ hnd hhas; exact ⟨by simpa [fetchLoop] using hnd,
      by simpa [fetchLoop] using hhas⟩
  | cons e rest ih =>
    intro st f pre hwf hnd hhas
    have hwfe := hwf e (by simp)
    have hwfr : ∀ e' ∈ rest, e'.target = targetName root e'.sha256 :=
      fun e' h => hwf e' (by simp [h])
    by_cases he : Store.has st e.target = true
    · have := ih st f pre hwfr hnd hhas
      constructor
      · simpa [fetchLoop, he] using this.1
      · simpa [fetchLoop, he] using this.2
    · have hne : Store.has st e.target = false := by simpa using he
      have hfresh : e.sha256 ∉ pre ++ f.map Prod.fst := by
        intro hmem
        have hh := hhas e.sha256 hmem
        rw [← hwfe] at hh
        rw [hh] at hne
        exact Bool.noConfusion hne
      have hmap : (f ++ [(e.sha256, fetchUrl u e.sha256)]).map Prod.fst
          = f.map Prod.fst ++ [e.sha256] := by simp
      have hnd' : (pre ++ (f ++ [(e.sha256, fetchUrl u e.sha256)]).map Prod.fst).Nodup := by
        rw [hmap, ← List.append_assoc, ← List.concat_eq_append]
        exact List.Nodup.concat hfresh hnd
      have hhas' : ∀ s ∈ pre ++ (f ++ [(e.sha256, fetchUrl u e.sha256)]).map Prod.fst,
          Store.has (Store.write st e.target (r (fetchUrl u e.sha256)))
            (targetName root s) = true := by
        intro s hs
        rw [hmap, ← List.append_assoc] at hs
        rcases List.mem_append.mp hs with hs | hs
        · exact Store.has_write_mono _ _ _ (hhas s hs)
        · have hse : s = e.sha256 := by simpa using hs
          subst hse
          rw [← hwfe]
          exact Store.has_write_self _ _ _
      have := ih (Store.write st e.target (r (fetchUrl u e.sha256)))
        (f ++ [(e.sha256, fetchUrl u e.sha256)]) pre hwfr hnd' hhas'
      constructor
      · simpa [fetchLoop, hne] using this.1
      · simpa [fetchLoop, hne] using this.2

/-! ### Import-loop lemmas -/

theorem importLoop_store_mono (gh : Option SteamHashes) (readFS : String → Option Bytes) :
    ∀ (es : List Entry) (st : Store) (imported : List String) {p : String},
      Store.has st p = true → Store.has (importLoop gh readFS es st imported).1 p = true := by
  intro es
  induction es with
  | nil => intro st imported p h; simpa [importLoop] using h
  | cons e rest ih =>
    intro st imported p h
    by_cases he : Store.has st e.target = true
    · simpa [importLoop, he] using ih st imported h
    · have hne : Store.has st e.target = false := by simpa using he
      cases gh with
      | none => simpa [importLoop, hne] using h
      | some g =>
        cases hsrc : alookup g.path_by_hash e.sha256 with
        | none => simpa [importLoop, hne, hsrc] using h
        | some src =>
          cases hrd : readFS (g.game_dir ++ "/" ++ src) with
          | none => simpa [importLoop, hne, hsrc, hrd] using h
          | some b =>
            simpa [importLoop, hne, hsrc, hrd] using
              ih (Store.write st e.target b) (imported ++ [e.sha256])
                (Store.has_write_mono _ _ _ h)

theorem importLoop_complete (gh : Option SteamHashes) (readFS : String → Option Bytes) :
    ∀ (es : List Entry) (st : Store) (imported : List String),
      (importLoop gh readFS es st imported).2.2 = none →
      ∀ e ∈ es, Store.has (importLoop gh readFS es st imported).1 e.target = true := by
  intro es
  induction es with
  | nil => intro st imported _ e h; simp at h
  | cons e rest ih =>
    intro st imported hok e' he'
    by_cases he : Store.has st e.target = true
    · rcases List.mem_cons.mp he' with h | h
      · rw [h]
        simpa [importLoop, he] using importLoop_store_mono gh readFS rest st imported he
      · simp only [importLoop, he, if_true] at hok ⊢
        exact ih st imported hok e' h
    · have hne : Store.has st e.target = false := by simpa using he
      cases gh with
      | none => simp [importLoop, hne] at hok
      | some g =>
        cases hsrc : alookup g.path_by_hash e.sha256 with
        | none => simp [importLoop, hne, hsrc] at hok
        | some src =>
          cases hrd : readFS (g.game_dir ++ "/" ++ src) with
          | none => simp [importLoop, hne, hsrc, hrd] at hok
          | some b =>
            simp only [importLoop, hne, Bool.false_eq_true, if_false, hsrc, hrd] at hok ⊢
            rcases List.mem_cons.mp he' with h | h
            · rw [h]
              exact importLoop_store_mono _ _ rest _ _
                (Store.has_write_self st e.target b)
            · exact ih (Store.write st e.target b) (imported ++ [e.sha256]) hok e' h

theorem importLoop_content (gh : Option SteamHashes) (readFS : String → Option Bytes) :
    ∀ (es : List Entry) (st : Store) (imported : List String) {p : String} {b : Bytes},
      alookup st p = some b → alookup (importLoop gh readFS es st imported).1 p = some b := by
  intro es
  induction es with
  | nil => intro st imported p b h; simpa [importLoop] using h
  | cons e rest ih =>
    intro st imported p b h
    by_cases he : Store.has st e.target = true
    · simpa [importLoop, he] using ih st imported h
    · have hne : Store.has st e.target = false := by simpa using he
      cases gh with
      | none => simpa [importLoop, hne] using h
      | some g =>
        cases hsrc : alookup g.path_by_hash e.sha256 with
        | none => simpa [importLoop, hne, hsrc] using h
        | some src =>
          cases hrd : readFS (g.game_dir ++ "/" ++ src) with
          | none => simpa [importLoop, hne, hsrc, hrd] using h
          | some b' =>
            simpa [importLoop, hne, hsrc, hrd] using
              ih (Store.write st e.target b') (imported ++ [e.sha256])
                (alookup_write_stable st _ _ h hne)

theorem importLoop_noop (gh : Option SteamHashes) (readFS : String → Option Bytes) :
    ∀ (es : List Entry) (st : Store) (imported : List String),
      (∀ e ∈ es, Store.has st e.target = true) →
      importLoop gh readFS es st imported = (st, imported, none) := by
  intro es
  induction es with
  | nil => intro st imported _; simp [importLoop]
  | cons e rest ih =>
    intro st imported h
    have he := h e (by simp)
    simpa [importLoop, he] using ih st imported (fun e' h' => h e' (by simp [h']))

theorem importLoop_prov (gh : Option SteamHashes) (readFS : String → Option Bytes) :
    ∀ (es : List Entry) (st : Store) (imported : List String) {s : String},
      s ∈ (importLoop gh readFS es st imported).2.1 →
      s ∈ imported ∨ ∃ e, e ∈ es ∧ s = e.sha256 ∧ Store.has st e.target = false := by
  intro es
  induction es with
  | nil => intro st imported s h; simp [importLoop] at h; exact Or.inl h
  | cons e rest ih =>
    intro st imported s h
    by_cases he : Store.has st e.target = true
    · rw [show importLoop gh readFS (e :: rest) st imported
        = importLoop gh readFS rest st imported by simp [importLoop, he]] at h
      rcases ih st imported h with h' | ⟨e', he', hs, hst⟩
      · exact Or.inl h'
      · exact Or.inr ⟨e', by simp [he'], hs, hst⟩
    · have hne : Store.has st e.target = false := by simpa using he
      cases gh with
      | none =>
        rw [show importLoop none readFS (e :: rest) st imported
          = (st, imported, some PipelineError.filesystemError) by
            simp [importLoop, hne]] at h
        exact Or.inl h
      | some g =>
        cases hsrc : alookup g.path_by_hash e.sha256 with
        | none =>
          rw [show importLoop (some g) readFS (e :: rest) st imported
            = (st, imported, some PipelineError.filesystemError) by
              simp [importLoop, hne, hsrc]] at h
          exact Or.inl h
        | some src =>
          cases hrd : readFS (g.game_dir ++ "/" ++ src) with
          | none =>
            rw [show importLoop (some g) readFS (e :: rest) st imported
              = (st, imported, some PipelineError.filesystemError) by
                simp [importLoop, hne, hsrc, hrd]] at h
            exact Or.inl h
          | some b =>
            rw [show importLoop (some g) readFS (e :: rest) st imported
              = importLoop (some g) readFS rest (Store.write st e.target b)
                (imported ++ [e.sha256]) by simp [importLoop, hne, hsrc, hrd]] at h
            rcases ih _ _ h with h' | ⟨e', he', hs, hst⟩
            · rcases List.mem_append.mp h' with h'' | h''
              · exact Or.inl h''
              · exact Or.inr ⟨e, by simp, by simpa using h'', hne⟩
            · refine Or.inr ⟨e', by simp [he'], hs, ?_⟩
              by_contra hc
              have hx : Store.has st e'.target = true := by
                cases hb : Store.has st e'.target
                · exact absurd hb hc
                · rfl
              rw [Store.has_write_mono st e.target b hx] at hst
              exact Bool.noConfusion hst

theorem importLoop_fresh (root : String) (gh : Option SteamHashes)
    (readFS : String → Option Bytes) :
    ∀ (es : List Entry) (st : Store) (imported : List String),
      (∀ e ∈ es, e.target = targetName root e.sha256) →
      imported.Nodup →
      (∀ s ∈ imported, Store.has st (targetName root s) = true) →
      (importLoop gh readFS es st imported).2.1.Nodup ∧
        ∀ s ∈ (importLoop gh readFS es st imported).2.1,
          Store.has (importLoop gh readFS es st imported).1 (targetName root s) = true := by
  intro es
  induction es with
  | nil => intro st imported _ hnd hhas
           exact ⟨by simpa [importLoop] using hnd, by simpa [importLoop] using hhas⟩
  | cons e rest ih =>
    intro st imported hwf hnd hhas
    have hwfe := hwf e (by simp)
    have hwfr : ∀ e' ∈ rest, e'.target = targetName root e'.sha256 :=
      fun e' h => hwf e' (by simp [h])
    by_cases he : Store.has st e.target = true
    · have := ih st imported hwfr hnd hhas
      exact ⟨by simpa [importLoop, he] using this.1, by simpa [importLoop, he] using this.2⟩
    · have hne : Store.has st e.target = false := by simpa using he
      cases gh with
      | none =>
        exact ⟨by simpa [importLoop, hne] using hnd, by simpa [importLoop, hne] using hhas⟩
      | some g =>
        cases hsrc : alookup g.path_by_hash e.sha256 with
        | none =>
          exact ⟨by simpa [importLoop, hne, hsrc] using hnd,
                 by simpa [importLoop, hne, hsrc] using hhas⟩
        | some src =>
          cases hrd : readFS (g.game_dir ++ "/" ++ src) with
          | none =>
            exact ⟨by simpa [importLoop, hne, hsrc, hrd] using hnd,
                   by simpa [importLoop, hne, hsrc, hrd] using hhas⟩
          | some b =>
            have hfresh : e.sha256 ∉ imported := by
              intro hmem
              have hh := hhas e.sha256 hmem
              rw [← hwfe] at hh
              rw [hh] at hne
              exact Bool.noConfusion hne
            have hnd' : (imported ++ [e.sha256]).Nodup := by
              rw [← List.concat_eq_append]
              exact List.Nodup.concat hfresh hnd
            have hhas' : ∀ s ∈ imported ++ [e.sha256],
                Store.has (Store.write st e.target b) (targetName root s) = true := by
              intro s hs
              rcases List.mem_append.mp hs with hs | hs
              · exact Store.has_write_mono _ _ _ (hhas s hs)
              · have hse : s = e.sha256 := by simpa using hs
                subst hse
                rw [← hwfe]
                exact Store.has_write_self _ _ _
            have := ih (Store.write st e.target b) (imported ++ [e.sha256]) hwfr hnd' hhas'
            exact ⟨by simpa [importLoop, hne, hsrc, hrd] using this.1,
                   by simpa [importLoop, hne, hsrc, hrd] using this.2⟩

theorem importLoop_reads (root : String) (g : SteamHashes)
    (readFS : String → Option Bytes) :
    ∀ (es : List Entry) (st : Store) (imported : List String),
      (∀ e ∈ es, e.target = targetName root e.sha256) →
      (∀ s ∈ imported, ∃ p b, alookup g.path_by_hash s = some p ∧
        readFS (g.game_dir ++ "/" ++ p) = some b ∧
        alookup st (targetName root s) = some b) →
      ∀ s ∈ (importLoop (some g) readFS es st imported).2.1,
        ∃ p b, alookup g.path_by_hash s = some p ∧
          readFS (g.game_dir ++ "/" ++ p) = some b ∧
          alookup (importLoop (some g) readFS es st imported).1 (targetName root s) = some b := by
  intro es
  induction es with
  | nil => intro st imported _ hinv s hs; exact hinv s hs
  | cons e rest ih =>
    intro st imported hwf hinv s hs
    have hwfe := hwf e (by simp)
    have hwfr : ∀ e' ∈ rest, e'.target = targetName root e'.sha256 :=
      fun e' h => hwf e' (by simp [h])
    by_cases he : Store.has st e.target = true
    · rw [show importLoop (some g) readFS (e :: rest) st imported
        = importLoop (some g) readFS rest st imported by simp [importLoop, he]] at hs ⊢
      exact ih st imported hwfr hinv s hs
    · have hne : Store.has st e.target = false := by simpa using he
      cases hsrc : alookup g.path_by_hash e.sha256 with
      | none =>
        rw [show importLoop (some g) readFS (e :: rest) st imported
          = (st, imported, some PipelineError.filesystemError) by
            simp [importLoop, hne, hsrc]] at hs ⊢
        exact hinv s hs
      | some src =>
        cases hrd : readFS (g.game_dir ++ "/" ++ src) with
        | none =>
          rw [show importLoop (some g) readFS (e :: rest) st imported
            = (st, imported, some PipelineError.filesystemError) by
              simp [importLoop, hne, hsrc, hrd]] at hs ⊢
          exact hinv s hs
        | some b =>
          rw [show importLoop (some g) readFS (e :: rest) st imported
            = importLoop (some g) readFS rest (Store.write st e.target b)
              (imported ++ [e.sha256]) by simp [importLoop, hne, hsrc, hrd]] at hs ⊢
          refine ih (Store.write st e.target b) (imported ++ [e.sha256]) hwfr ?_ s hs
          intro s' hs'
          rcases List.mem_append.mp hs' with h' | h'
          · obtain ⟨p, b', hp, hr, hl⟩ := hinv s' h'
            exact ⟨p, b', hp, hr, alookup_write_stable st _ _ hl hne⟩
          · have hse : s' = e.sha256 := by simpa using h'
            subst hse
            refine ⟨src, b, hsrc, hrd, ?_⟩
            rw [← hwfe]
            exact alookup_ainsert_self st e.target b

/-! ### Classification lemmas -/

theorem classify_fromData_iff (st : Store) (gh : Option SteamHashes) (e : Entry) :
    classify st gh e = SourceClass.fromData ↔ Store.has st e.target = true := by
  by_cases h : Store.has st e.target = true
  · simp [classify, h]
  · have h' : Store.has st e.target = false := by simpa using h
    by_cases hi : indexHas gh e.sha256 = true
    · simp [classify, h', hi]
    · have hi' : indexHas gh e.sha256 = false := by simpa using hi
      simp [classify, h', hi']

theorem classify_fromGame_iff (st : Store) (gh : Option SteamHashes) (e : Entry) :
    classify st gh e = SourceClass.fromGame ↔
      Store.has st e.target = false ∧ indexHas gh e.sha256 = true := by
  by_cases h : Store.has st e.target = true
  · simp [classify, h]
  · have h' : Store.has st e.target = false := by simpa using h
    by_cases hi : indexHas gh e.sha256 = true
    · simp [classify, h', hi]
    · have hi' : indexHas gh e.sha256 = false := by simpa using hi
      simp [classify, h', hi']

theorem classify_fromWeb_iff (st : Store) (gh : Option SteamHashes) (e : Entry) :
    classify st gh e = SourceClass.fromWeb ↔
      Store.has st e.target = false ∧ indexHas gh e.sha256 = false := by
  by_cases h : Store.has st e.target = true
  · simp [classify, h]
  · have h' : Store.has st e.target = false := by simpa using h
    by_cases hi : indexHas gh e.sha256 = true
    · simp [classify, h', hi]
    · have hi' : indexHas gh e.sha256 = false := by simpa using hi
      simp [classify, h', hi']

theorem proj_classifyStep_self (st : Store) (gh : Option SteamHashes)
    (d : ClassDicts) (e : Entry) :
    (classifyStep st gh d e).proj (classify st gh e)
      = ainsert (d.proj (classify st gh e)) e.path e := by
  cases hc : classify st gh e <;> simp [classifyStep, hc, ClassDicts.proj]

theorem proj_classifyStep_other (st : Store) (gh : Option SteamHashes)
    (d : ClassDicts) (e : Entry) (c : SourceClass) (h : c ≠ classify st gh e) :
    (classifyStep st gh d e).proj c = d.proj c := by
  cases c <;> cases hc : classify st gh e <;>
    simp_all [classifyStep, ClassDicts.proj]

theorem foldl_classify_key_mono (st : Store) (gh : Option SteamHashes) :
    ∀ (es : List Entry) (d : ClassDicts) (c : SourceClass) (k : String),
      (alookup (d.proj c) k).isSome = true →
      (alookup ((es.foldl (classifyStep st gh) d).proj c) k).isSome = true := by
  intro es
  induction es with
  | nil => intro d c k h; simpa using h
  | cons e rest ih =>
    intro d c k h
    rw [List.foldl_cons]
    apply ih
    by_cases hc : c = classify st gh e
    · subst hc
      rw [proj_classifyStep_self]
      exact alookup_ainsert_isSome _ _ _ h
    · rw [proj_classifyStep_other st gh d e c hc]
      exact h

theorem foldl_classify_mem_key (st : Store) (gh : Option SteamHashes) :
    ∀ (es : List Entry) (d : ClassDicts) (e : Entry), e ∈ es →
      (alookup ((es.foldl (classifyStep st gh) d).proj (classify st gh e))
        e.path).isSome = true := by
  intro es
  induction es with
  | nil => intro d e h; simp at h
  | cons e0 rest ih =>
    intro d e h
    rw [List.foldl_cons]
    rcases List.mem_cons.mp h with h | h
    · subst h
      apply foldl_classify_key_mono
      rw [proj_classifyStep_self]
      simp [alookup_ainsert_self]
    · exact ih _ e h

theorem foldl_classify_lookup_char (st : Store) (gh : Option SteamHashes) :
    ∀ (es : List Entry) (d : ClassDicts) (c : SourceClass) (k : String) (v : Entry),
      alookup ((es.foldl (classifyStep st gh) d).proj c) k = some v →
      alookup (d.proj c) k = some v ∨
        (v ∈ es ∧ classify st gh v = c ∧ v.path = k) := by
  intro es
  induction es with
  | nil => intro d c k v h; exact Or.inl h
  | cons e rest ih =>
    intro d c k v h
    rw [List.foldl_cons] at h
    rcases ih _ c k v h with h' | h'
    · by_cases hc : c = classify st gh e
      · subst hc
        rw [proj_classifyStep_self, alookup_ainsert] at h'
        by_cases hk : k = e.path
        · rw [if_pos hk] at h'
          have hv : e = v := by simpa using h'
          subst hv
          exact Or.inr ⟨by simp, rfl, hk.symm⟩
        · rw [if_neg hk] at h'
          exact Or.inl h'
      · rw [proj_classifyStep_other st gh d e _ hc] at h'
        exact Or.inl h'
    · exact Or.inr ⟨by simp [h'.1], h'.2⟩

theorem foldl_classify_values_char (st : Store) (gh : Option SteamHashes) :
    ∀ (es : List Entry) (d : ClassDicts) (c : SourceClass) (v : Entry),
      v ∈ dictValues ((es.foldl (classifyStep st gh) d).proj c) →
      v ∈ dictValues (d.proj c) ∨ (v ∈ es ∧ classify st gh v = c) := by
  intro es
  induction es with
  | nil => intro d c v h; exact Or.inl h
  | cons e rest ih =>
    intro d c v h
    rw [List.foldl_cons] at h
    rcases ih _ c v h with h' | h'
    · by_cases hc : c = classify st gh e
      · subst hc
        rw [proj_classifyStep_self] at h'
        rcases mem_values_ainsert _ _ _ h' with h'' | h''
        · subst h''
          exact Or.inr ⟨by simp, rfl⟩
        · exact Or.inl h''
      · rw [proj_classifyStep_other st gh d e _ hc] at h'
        exact Or.inl h'
    · exact Or.inr ⟨by simp [h'.1], h'.2⟩

theorem classifyAll_values_char (st : Store) (gh : Option SteamHashes)
    (es : List Entry) (c : SourceClass) (v : Entry)
    (h : v ∈ dictValues ((classifyAll st gh es).proj c)) :
    v ∈ es ∧ classify st gh v = c := by
  rcases foldl_classify_values_char st gh es ⟨[], [], []⟩ c v (by simpa [classifyAll] using h)
    with h' | h'
  · cases c <;> simp [ClassDicts.proj, dictValues] at h'
  · exact h'

theorem classifyAll_lookup_char (st : Store) (gh : Option SteamHashes)
    (es : List Entry) (c : SourceClass) (k : String) (v : Entry)
    (h : alookup ((classifyAll st gh es).proj c) k = some v) :
    v ∈ es ∧ classify st gh v = c ∧ v.path = k := by
  rcases foldl_classify_lookup_char st gh es ⟨[], [], []⟩ c k v
    (by simpa [classifyAll] using h) with h' | h'
  · cases c <;> simp [ClassDicts.proj, alookup] at h'
  · exact h'

theorem classifyAll_mem_key (st : Store) (gh : Option SteamHashes)
    (es : List Entry) (e : Entry) (h : e ∈ es) :
    (alookup ((classifyAll st gh es).proj (classify st gh e)) e.path).isSome = true := by
  simpa [classifyAll] using foldl_classify_mem_key st gh es ⟨[], [], []⟩ e h

theorem classifyAll_allhas (st : Store) (gh : Option SteamHashes) :
    ∀ (es : List Entry) (d : ClassDicts),
      (∀ e ∈ es, Store.has st e.target = true) →
      (es.foldl (classifyStep st gh) d).from_game = d.from_game ∧
        (es.foldl (classifyStep st gh) d).from_web = d.from_web := by
  intro es
  induction es with
  | nil => intro d _; exact ⟨rfl, rfl⟩
  | cons e rest ih =>
    intro d h
    have he : classify st gh e = SourceClass.fromData :=
      (classify_fromData_iff st gh e).mpr (h e (by simp))
    rw [List.foldl_cons]
    have hstep : (classifyStep st gh d e).from_game = d.from_game ∧
        (classifyStep st gh d e).from_web = d.from_web := by
      simp [classifyStep, he]
    obtain ⟨h1, h2⟩ := ih (classifyStep st gh d e) (fun e' h' => h e' (by simp [h']))
    exact ⟨h1.trans hstep.1, h2.trans hstep.2⟩

/-! ### Manifest-reader lemmas -/

theorem decodeLine_ok_some (root : String) (obj : JObj) (e : Entry)
    (h : decodeLine root obj = Except.ok (some e)) :
    e.target = targetName root e.sha256 ∧ strStartsWith e.path "Bundles2" = true := by
  unfold decodeLine at h
  cases hp : alookup obj "path" with
  | none => rw [hp] at h; dsimp only at h; simp at h
  | some v =>
    rw [hp] at h
    cases v with
    | jnum n => dsimp only at h; simp at h
    | jstr p =>
      dsimp only at h
      by_cases hs : strStartsWith p "Bundles2" = true
      · rw [if_pos hs] at h
        cases hsha : alookup obj "sha256" with
        | none => rw [hsha] at h; dsimp only at h; simp at h
        | some w =>
          rw [hsha] at h
          cases w with
          | jnum n => dsimp only at h; simp at h
          | jstr sha =>
            dsimp only at h
            cases hsz : alookup obj "size" with
            | none => rw [hsz] at h; dsimp only at h; simp at h
            | some size =>
              rw [hsz] at h
              dsimp only at h
              have h1 := Except.ok.inj h
              have h2 := Option.some.inj h1
              cases h2
              exact ⟨rfl, hs⟩
      · rw [if_neg hs] at h
        simp at h

theorem decodeLine_ok_none_iff (root : String) (obj : JObj) :
    decodeLine root obj = Except.ok none ↔
      ∃ p, alookup obj "path" = some (JVal.jstr p) ∧
        strStartsWith p "Bundles2" = false := by
  constructor
  · intro h
    unfold decodeLine at h
    cases hp : alookup obj "path" with
    | none => rw [hp] at h; dsimp only at h; simp at h
    | some v =>
      rw [hp] at h
      cases v with
      | jnum n => dsimp only at h; simp at h
      | jstr p =>
        dsimp only at h
        by_cases hs : strStartsWith p "Bundles2" = true
        · rw [if_pos hs] at h
          cases hsha : alookup obj "sha256" with
          | none => rw [hsha] at h; dsimp only at h; simp at h
          | some w =>
            rw [hsha] at h
            cases w with
            | jnum n => dsimp only at h; simp at h
            | jstr sha =>
              dsimp only at h
              cases hsz : alookup obj "size" with
              | none => rw [hsz] at h; dsimp only at h; simp at h
              | some size => rw [hsz] at h; dsimp only at h; simp at h
        · exact ⟨p, rfl, by simpa using hs⟩
  · rintro ⟨p, hp, hs⟩
    unfold decodeLine
    rw [hp]
    dsimp only
    rw [if_neg]
    simp [hs]

theorem decodeLine_include (root : String) (obj : JObj) (p sha : String)
    (size : JVal) (hp : alookup obj "path" = some (JVal.jstr p))
    (hs : strStartsWith p "Bundles2" = true)
    (hsha : alookup obj "sha256" = some (JVal.jstr sha))
    (hsz : alookup obj "size" = some size) :
    decodeLine root obj = Except.ok (some
      { path := p, sha256 := sha, size := size, target := targetName root sha }) := by
  unfold decodeLine
  rw [hp]
  dsimp only
  rw [if_pos hs, hsha]
  dsimp only
  rw [hsz]

theorem decodeLine_error_of_no_path (root : String) (obj : JObj)
    (hp : alookup obj "path" = none) :
    decodeLine root obj = Except.error PipelineError.manifestFormatError := by
  unfold decodeLine
  rw [hp]

theorem decodeLine_error_of_no_sha (root : String) (obj : JObj) (p : String)
    (hp : alookup obj "path" = some (JVal.jstr p))
    (hs : strStartsWith p "Bundles2" = true)
    (hsha : alookup obj "sha256" = none) :
    decodeLine root obj = Except.error PipelineError.manifestFormatError := by
  unfold decodeLine
  rw [hp]
  dsimp only
  rw [if_pos hs, hsha]

theorem readEntries_skip (root : String) (obj : JObj) (rest : List JObj)
    (h : decodeLine root obj = Except.ok none) :
    readEntries root (obj :: rest) = readEntries root rest := by
  simp [readEntries, h]

theorem readEntries_error_head (root : String) (obj : JObj) (rest : List JObj)
    (err : PipelineError) (h : decodeLine root obj = Except.error err) :
    readEntries root (obj :: rest) = Except.error err := by
  simp [readEntries, h]

theorem readEntries_wf (root : String) :
    ∀ (lines : List JObj) (es : List Entry),
      readEntries root lines = Except.ok es →
      ∀ e ∈ es, e.target = targetName root e.sha256 ∧
        strStartsWith e.path "Bundles2" = true := by
  intro lines
  induction lines with
  | nil =>
    intro es h e he
    have hes : es = [] := by simpa [readEntries] using h.symm
    subst hes
    simp at he
  | cons obj rest ih =>
    intro es h e he
    unfold readEntries at h
    cases hd : decodeLine root obj with
    | error err => rw [hd] at h; dsimp only at h; simp at h
    | ok o =>
      rw [hd] at h
      cases o with
      | none => dsimp only at h; exact ih es h e he
      | some e0 =>
        dsimp only at h
        cases hr : readEntries root rest with
        | error err => rw [hr] at h; dsimp only at h; simp at h
        | ok es0 =>
          rw [hr] at h
          dsimp only at h
          have hes : e0 :: es0 = es := Except.ok.inj h
          subst hes
          rcases List.mem_cons.mp he with h' | h'
          · rw [h']
            exact decodeLine_ok_some root obj e0 hd
          · exact ih es0 hr e h'

/-! ### Link-loop lemmas -/

theorem linkExists_iff (st : Store) (links : Links) (p : String) :
    linkExists st links p = true ↔
      ∃ l, alookup links p = some l ∧
        (l.kind = LinkKind.hard ∨
          (l.kind = LinkKind.sym ∧ Store.has st l.target = true)) := by
  cases hp : alookup links p with
  | none => simp [linkExists, hp]
  | some l =>
    cases hk : l.kind with
    | hard => simp [linkExists, hp, hk]
    | sym => simp [linkExists, hp, hk]

theorem linkStep_skip_sym (root : String) (build : Nat) (st : Store)
    (links : Links) (e : Entry) (l : FsLink)
    (h : alookup links (linkName root build e.path) = some l) :
    linkStep false root build st links e = Except.ok links := by
  simp [linkStep, h]

theorem linkStep_create_sym (root : String) (build : Nat) (st : Store)
    (links : Links) (e : Entry)
    (h : alookup links (linkName root build e.path) = none) :
    linkStep false root build st links e = Except.ok
      (ainsert links (linkName root build e.path)
        ⟨LinkKind.sym, targetName root e.sha256⟩) := by
  simp [linkStep, h]

theorem linkStep_skip_hard (root : String) (build : Nat) (st : Store)
    (links : Links) (e : Entry)
    (h : linkExists st links (linkName root build e.path) = true) :
    linkStep true root build st links e = Except.ok links := by
  simp [linkStep, h]

theorem linkStep_create_hard (root : String) (build : Nat) (st : Store)
    (links : Links) (e : Entry)
    (h1 : alookup links (linkName root build e.path) = none)
    (h2 : Store.has st (targetName root e.sha256) = true) :
    linkStep true root build st links e = Except.ok
      (ainsert links (linkName root build e.path)
        ⟨LinkKind.hard, targetName root e.sha256⟩) := by
  have hex : linkExists st links (linkName root build e.path) = false := by
    simp [linkExists, h1]
  simp [linkStep, hex, h1, h2]

theorem linkStep_hard_error (root : String) (build : Nat) (st : Store)
    (links : Links) (e : Entry)
    (h1 : alookup links (linkName root build e.path) = none)
    (h2 : Store.has st (targetName root e.sha256) = false) :
    linkStep true root build st links e
      = Except.error PipelineError.filesystemError := by
  have hex : linkExists st links (linkName root build e.path) = false := by
    simp [linkExists, h1]
  simp [linkStep, hex, h1, h2]

theorem linkStep_ok_binding (hl : Bool) (root : String) (build : Nat)
    (st : Store) (links : Links) (e : Entry) (links' : Links)
    (h : linkStep hl root build st links e = Except.ok links') :
    ∀ (k : String) (l : FsLink), alookup links k = some l →
      alookup links' k = some l := by
  intro k l hk
  cases hl with
  | false =>
    cases halk : alookup links (linkName root build e.path) with
    | some l0 =>
      rw [linkStep_skip_sym root build st links e l0 halk] at h
      rw [← Except.ok.inj h]
      exact hk
    | none =>
      rw [linkStep_create_sym root build st links e halk] at h
      rw [← Except.ok.inj h]
      have hne : k ≠ linkName root build e.path := by
        intro hkk
        rw [hkk, halk] at hk
        exact Option.noConfusion hk
      rw [alookup_ainsert_ne _ _ _ hne]
      exact hk
  | true =>
    cases hex : linkExists st links (linkName root build e.path) with
    | true =>
      rw [linkStep_skip_hard root build st links e hex] at h
      rw [← Except.ok.inj h]
      exact hk
    | false =>
      cases halk : alookup links (linkName root build e.path) with
      | some l0 =>
        have : linkStep true root build st links e
            = Except.error PipelineError.filesystemError := by
          simp [linkStep, hex, halk]
        rw [this] at h
        exact Except.noConfusion h
      | none =>
        cases hhas : Store.has st (targetName root e.sha256) with
        | true =>
          rw [linkStep_create_hard root build st links e halk hhas] at h
          rw [← Except.ok.inj h]
          have hne : k ≠ linkName root build e.path := by
            intro hkk
            rw [hkk, halk] at hk
            exact Option.noConfusion hk
          rw [alookup_ainsert_ne _ _ _ hne]
          exact hk
        | false =>
          rw [linkStep_hard_error root build st links e halk hhas] at h
          exact Except.noConfusion h

theorem linkStep_ok_lname (hl : Bool) (root : String) (build : Nat)
    (st : Store) (links : Links) (e : Entry) (links' : Links)
    (h : linkStep hl root build st links e = Except.ok links') :
    (alookup links' (linkName root build e.path)).isSome = true := by
  cases hl with
  | false =>
    cases halk : alookup links (linkName root build e.path) with
    | some l0 =>
      rw [linkStep_skip_sym root build st links e l0 halk] at h
      rw [← Except.ok.inj h, halk]
      rfl
    | none =>
      rw [linkStep_create_sym root build st links e halk] at h
      rw [← Except.ok.inj h, alookup_ainsert_self]
      rfl
  | true =>
    cases hex : linkExists st links (linkName root build e.path) with
    | true =>
      obtain ⟨l, hl', _⟩ := (linkExists_iff st links _).mp hex
      rw [linkStep_skip_hard root build st links e hex] at h
      rw [← Except.ok.inj h, hl']
      rfl
    | false =>
      cases halk : alookup links (linkName root build e.path) with
      | some l0 =>
        have : linkStep true root build st links e
            = Except.error PipelineError.filesystemError := by
          simp [linkStep, hex, halk]
        rw [this] at h
        exact Except.noConfusion h
      | none =>
        cases hhas : Store.has st (targetName root e.sha256) with
        | true =>
          rw [linkStep_create_hard root build st links e halk hhas] at h
          rw [← Except.ok.inj h, alookup_ainsert_self]
          rfl
        | false =>
          rw [linkStep_hard_error root build st links e halk hhas] at h
          exact Except.noConfusion h

theorem linkStep_ok_restep (hl : Bool) (root : String) (build : Nat)
    (st : Store) (links links_a links1 : Links) (e : Entry)
    (h : linkStep hl root build st links e = Except.ok links_a)
    (hmono : ∀ (k : String) (l : FsLink), alookup links_a k = some l →
      alookup links1 k = some l) :
    linkStep hl root build st links1 e = Except.ok links1 := by
  cases hl with
  | false =>
    cases halk : alookup links (linkName root build e.path) with
    | some l0 =>
      rw [linkStep_skip_sym root build st links e l0 halk] at h
      have hb := hmono _ l0 (by rw [← Except.ok.inj h]; exact halk)
      exact linkStep_skip_sym root build st links1 e l0 hb
    | none =>
      rw [linkStep_create_sym root build st links e halk] at h
      have hb := hmono (linkName root build e.path)
        ⟨LinkKind.sym, targetName root e.sha256⟩
        (by rw [← Except.ok.inj h]; exact alookup_ainsert_self _ _ _)
      exact linkStep_skip_sym root build st links1 e _ hb
  | true =>
    cases hex : linkExists st links (linkName root build e.path) with
    | true =>
      obtain ⟨l, hl', hcond⟩ := (linkExists_iff st links _).mp hex
      rw [linkStep_skip_hard root build st links e hex] at h
      have hb := hmono _ l (by rw [← Except.ok.inj h]; exact hl')
      exact linkStep_skip_hard root build st links1 e
        ((linkExists_iff st links1 _).mpr ⟨l, hb, hcond⟩)
    | false =>
      cases halk : alookup links (linkName root build e.path) with
      | some l0 =>
        have : linkStep true root build st links e
            = Except.error PipelineError.filesystemError := by
          simp [linkStep, hex, halk]
        rw [this] at h
        exact Except.noConfusion h
      | none =>
        cases hhas : Store.has st (targetName root e.sha256) with
        | true =>
          rw [linkStep_create_hard root build st links e halk hhas] at h
          have hb := hmono (linkName root build e.path)
            ⟨LinkKind.hard, targetName root e.sha256⟩
            (by rw [← Except.ok.inj h]; exact alookup_ainsert_self _ _ _)
          exact linkStep_skip_hard root build st links1 e
            ((linkExists_iff st links1 _).mpr ⟨_, hb, Or.inl rfl⟩)
        | false =>
          rw [linkStep_hard_error root build st links e halk hhas] at h
          exact Except.noConfusion h

theorem linkLoop_persist (hl : Bool) (root : String) (build : Nat) (st : Store) :
    ∀ (es : List Entry) (links : Links) (k : String) (l : FsLink),
      alookup links k = some l →
      alookup (linkLoop hl root build st es links).1 k = some l := by
  intro es
  induction es with
  | nil => intro links k l h; simpa [linkLoop] using h
  | cons e rest ih =>
    intro links k l h
    cases hstep : linkStep hl root build st links e with
    | error err => simpa [linkLoop, hstep] using h
    | ok links_a =>
      rw [show linkLoop hl root build st (e :: rest) links
        = linkLoop hl root build st rest links_a by simp [linkLoop, hstep]]
      exact ih links_a k l
        (linkStep_ok_binding hl root build st links e links_a hstep k l h)

theorem linkLoop_complete (hl : Bool) (root : String) (build : Nat) (st : Store) :
    ∀ (es : List Entry) (links : Links),
      (linkLoop hl root build st es links).2 = none →
      ∀ e ∈ es, (alookup (linkLoop hl root build st es links).1
        (linkName root build e.path)).isSome = true := by
  intro es
  induction es with
  | nil => intro links _ e h; simp at h
  | cons e0 rest ih =>
    intro links hok e he
    cases hstep : linkStep hl root build st links e0 with
    | error err =>
      rw [show linkLoop hl root build st (e0 :: rest) links = (links, some err) by
        simp [linkLoop, hstep]] at hok
      simp at hok
    | ok links_a =>
      rw [show linkLoop hl root build st (e0 :: rest) links
        = linkLoop hl root build st rest links_a by simp [linkLoop, hstep]] at hok ⊢
      rcases List.mem_cons.mp he with h' | h'
      · rw [h']
        have hb := linkStep_ok_lname hl root build st links e0 links_a hstep
        cases hq : alookup links_a (linkName root build e0.path) with
        | none => rw [hq] at hb; exact Bool.noConfusion hb
        | some l =>
          rw [linkLoop_persist hl root build st rest links_a _ l hq]
          rfl
      · exact ih links_a hok e h'

theorem linkLoop_sym_ok (root : String) (build : Nat) (st : Store) :
    ∀ (es : List Entry) (links : Links),
      (linkLoop false root build st es links).2 = none := by
  intro es
  induction es with
  | nil => intro links; simp [linkLoop]
  | cons e rest ih =>
    intro links
    cases halk : alookup links (linkName root build e.path) with
    | some l =>
      rw [show linkLoop false root build st (e :: rest) links
        = linkLoop false root build st rest links by
          simp [linkLoop, linkStep_skip_sym root build st links e l halk]]
      exact ih links
    | none =>
      rw [show linkLoop false root build st (e :: rest) links
        = linkLoop false root build st rest
          (ainsert links (linkName root build e.path)
            ⟨LinkKind.sym, targetName root e.sha256⟩) by
          simp [linkLoop, linkStep_create_sym root build st links e halk]]
      exact ih _

theorem linkLoop_idem (hl : Bool) (root : String) (build : Nat) (st : Store) :
    ∀ (es : List Entry) (links links1 : Links),
      linkLoop hl root build st es links = (links1, none) →
      linkLoop hl root build st es links1 = (links1, none) := by
  intro es
  induction es with
  | nil =>
    intro links links1 h
    have h1 : links = links1 := by
      have := congrArg Prod.fst h
      simpa [linkLoop] using this
    subst h1
    simp [linkLoop]
  | cons e rest ih =>
    intro links links1 h
    cases hstep : linkStep hl root build st links e with
    | error err =>
      rw [show linkLoop hl root build st (e :: rest) links = (links, some err) by
        simp [linkLoop, hstep]] at h
      have := congrArg Prod.snd h
      simp at this
    | ok links_a =>
      rw [show linkLoop hl root build st (e :: rest) links
        = linkLoop hl root build st rest links_a by simp [linkLoop, hstep]] at h
      have hmono : ∀ (k : String) (l : FsLink), alookup links_a k = some l →
          alookup links1 k = some l := by
        intro k l hk
        have hp := linkLoop_persist hl root build st rest links_a k l hk
        rw [h] at hp
        exact hp
      have hstep1 := linkStep_ok_restep hl root build st links links_a links1 e
        hstep hmono
      rw [show linkLoop hl root build st (e :: rest) links1
        = linkLoop hl root build st rest links1 by simp [linkLoop, hstep1]]
      exact ih links_a links1 h

/-! ### Stage-level lemmas -/

theorem stage_ok_inv (args : StageArgs) (hashFn : Bytes → String)
    (gameWalk : List (String × Bytes)) (readFS : String → Option Bytes)
    (remote : String → Bytes) (hl : Bool) (lines : List JObj) (w : World)
    (r : StageResult)
    (h : stage args hashFn gameWalk readFS remote hl lines w = StageOutcome.ok r) :
    ∃ es st1 imported links1,
      readEntries args.root lines = Except.ok es ∧
      importLoop (ghOf args hashFn gameWalk) readFS
        (dictValues (classifyAll w.store (ghOf args hashFn gameWalk) es).from_game)
        w.store [] = (st1, imported, none) ∧
      linkLoop hl args.root args.build
        (fetchLoop args.remote_url remote
          (dictValues (classifyAll w.store (ghOf args hashFn gameWalk) es).from_web)
          st1 []).1 es w.links = (links1, none) ∧
      r = ⟨⟨(fetchLoop args.remote_url remote
          (dictValues (classifyAll w.store (ghOf args hashFn gameWalk) es).from_web)
          st1 []).1, links1⟩, es, imported,
        (fetchLoop args.remote_url remote
          (dictValues (classifyAll w.store (ghOf args hashFn gameWalk) es).from_web)
          st1 []).2⟩ := by
  unfold stage at h
  cases hre : readEntries args.root lines with
  | error err =>
    rw [hre] at h
    dsimp only at h
    exact StageOutcome.noConfusion h
  | ok es =>
    rw [hre] at h
    dsimp only at h
    rcases himp : importLoop (ghOf args hashFn gameWalk) readFS
      (dictValues (classifyAll w.store (ghOf args hashFn gameWalk) es).from_game)
      w.store [] with ⟨st1, imported, errOpt⟩
    rw [himp] at h
    cases errOpt with
    | some err =>
      dsimp only at h
      exact StageOutcome.noConfusion h
    | none =>
      dsimp only at h
      rcases hlk : linkLoop hl args.root args.build
        (fetchLoop args.remote_url remote
          (dictValues (classifyAll w.store (ghOf args hashFn gameWalk) es).from_web)
          st1 []).1 es w.links with ⟨links1, lerr⟩
      rw [hlk] at h
      cases lerr with
      | some err =>
        dsimp only at h
        exact StageOutcome.noConfusion h
      | none =>
        dsimp only at h
        exact ⟨es, st1, imported, links1, rfl, himp, hlk,
          (StageOutcome.ok.inj h).symm⟩

theorem fetchLoop_written (root u : String) (r : String → Bytes) :
    ∀ (es : List Entry) (st : Store) (f : List (String × String)),
      (∀ e ∈ es, e.target = targetName root e.sha256) →
      (∀ x ∈ f, alookup st (targetName root x.1) = some (r x.2)) →
      ∀ x ∈ (fetchLoop u r es st f).2,
        alookup (fetchLoop u r es st f).1 (targetName root x.1) = some (r x.2) := by
  intro es
  induction es with
  | nil => intro st f _ hinv x hx; exact hinv x hx
  | cons e rest ih =>
    intro st f hwf hinv x hx
    have hwfe := hwf e (by simp)
    have hwfr : ∀ e' ∈ rest, e'.target = targetName root e'.sha256 :=
      fun e' h => hwf e' (by simp [h])
    by_cases he : Store.has st e.target = true
    · rw [show fetchLoop u r (e :: rest) st f = fetchLoop u r rest st f by
        simp [fetchLoop, he]] at hx ⊢
      exact ih st f hwfr hinv x hx
    · have hne : Store.has st e.target = false := by simpa using he
      rw [show fetchLoop u r (e :: rest) st f
        = fetchLoop u r rest (Store.write st e.target (r (fetchUrl u e.sha256)))
          (f ++ [(e.sha256, fetchUrl u e.sha256)]) by simp [fetchLoop, hne]] at hx ⊢
      refine ih _ _ hwfr ?_ x hx
      intro x' hx'
      rcases List.mem_append.mp hx' with h' | h'
      · exact alookup_write_stable st _ _ (hinv x' h') hne
      · have hxe : x' = (e.sha256, fetchUrl u e.sha256) := by simpa using h'
        subst hxe
        rw [← hwfe]
        exact alookup_ainsert_self st e.target _

theorem scan_fold_sound (hashFn : Bytes → String) :
    ∀ (walk : List (String × Bytes)) (m : List (String × String)) (H p : String),
      alookup (walk.foldl (fun m' pb => ainsert m' (hashFn pb.2) pb.1) m) H = some p →
      alookup m H = some p ∨ ∃ b, (p, b) ∈ walk ∧ hashFn b = H := by
  intro walk
  induction walk with
  | nil => intro m H p h; exact Or.inl h
  | cons pb rest ih =>
    intro m H p h
    rw [List.foldl_cons] at h
    rcases ih _ H p h with h' | ⟨b, hb, hh⟩
    · rw [alookup_ainsert] at h'
      by_cases hH : H = hashFn pb.2
      · rw [if_pos hH] at h'
        have hp : pb.1 = p := Option.some.inj h'
        exact Or.inr ⟨pb.2, by rw [← hp]; simp, hH.symm⟩
      · rw [if_neg hH] at h'
        exact Or.inl h'
    · exact Or.inr ⟨b, by simp [hb], hh⟩

theorem steamHashes_sound (hashFn : Bytes → String) (game_dir : String)
    (walk : List (String × Bytes)) (H p : String)
    (h : alookup (steamHashesInit hashFn game_dir walk).path_by_hash H = some p) :
    ∃ b, (p, b) ∈ walk ∧ hashFn b = H := by
  rcases scan_fold_sound hashFn walk [] H p (by simpa [steamHashesInit] using h)
    with h' | h'
  · simp [alookup] at h'
  · exact h'

theorem targetName_abs (root sha : String) (h : isAbsolutePath root = true) :
    isAbsolutePath (targetName root sha) = true := by
  unfold isAbsolutePath at h ⊢
  have h' : root.data.head? = some '/' := by simpa using h
  have hne : root.data ≠ [] := by
    intro hh
    rw [hh] at h'
    simp at h'
  unfold targetName dataDir
  simp only [String.data_append, List.append_assoc]
  rw [List.head?_append_of_ne_nil root.data hne]
  simp [h']

theorem stage_fail_of_readError (args : StageArgs) (hashFn : Bytes → String)
    (gameWalk : List (String × Bytes)) (readFS : String → Option Bytes)
    (remote : String → Bytes) (hl : Bool) (lines : List JObj) (w : World)
    (err : PipelineError) (h : readEntries args.root lines = Except.error err) :
    stage args hashFn gameWalk readFS remote hl lines w = StageOutcome.fail err w := by
  unfold stage
  rw [h]

theorem stage_skip_line (args : StageArgs) (hashFn : Bytes → String)
    (gameWalk : List (String × Bytes)) (readFS : String → Option Bytes)
    (remote : String → Bytes) (hl : Bool) (obj : JObj) (rest : List JObj)
    (w : World) (h : decodeLine args.root obj = Except.ok none) :
    stage args hashFn gameWalk readFS remote hl (obj :: rest) w
      = stage args hashFn gameWalk readFS remote hl rest w := by
  unfold stage
  rw [readEntries_skip args.root obj rest h]

theorem stage_ok_targets_present (args : StageArgs) (hashFn : Bytes → String)
    (gameWalk : List (String × Bytes)) (readFS : String → Option Bytes)
    (remote : String → Bytes) (hl : Bool) (lines : List JObj) (w : World)
    (r : StageResult)
    (h : stage args hashFn gameWalk readFS remote hl lines w = StageOutcome.ok r)
    (hpf : ∀ e1 ∈ r.entries, ∀ e2 ∈ r.entries, e1.path = e2.path →
      e1.sha256 = e2.sha256) :
    ∀ e ∈ r.entries, Store.has r.world.store e.target = true := by
  obtain ⟨es, st1, imported, links1, hre, himp, hlk, hr⟩ :=
    stage_ok_inv args hashFn gameWalk readFS remote hl lines w r h
  subst hr
  intro e he
  have hwf := readEntries_wf args.root lines es hre
  cases hc : classify w.store (ghOf args hashFn gameWalk) e with
  | fromData =>
    have hhas := (classify_fromData_iff _ _ _).mp hc
    have h1 : Store.has st1 e.target = true := by
      have hm := importLoop_store_mono (ghOf args hashFn gameWalk) readFS
        (dictValues (classifyAll w.store (ghOf args hashFn gameWalk) es).from_game)
        w.store [] hhas
      rw [himp] at hm
      exact hm
    exact fetchLoop_store_mono _ _ _ _ _ h1
  | fromGame =>
    have hkey := classifyAll_mem_key w.store (ghOf args hashFn gameWalk) es e he
    rw [hc] at hkey
    cases hq : alookup ((classifyAll w.store (ghOf args hashFn gameWalk) es).proj
        SourceClass.fromGame) e.path with
    | none => rw [hq] at hkey; exact Bool.noConfusion hkey
    | some e2 =>
      obtain ⟨he2, _, hp2⟩ :=
        classifyAll_lookup_char w.store (ghOf args hashFn gameWalk) es _ _ e2 hq
      have hv : e2 ∈ dictValues
          ((classifyAll w.store (ghOf args hashFn gameWalk) es).from_game) :=
        alookup_mem_values _ _ hq
      have h1 : Store.has st1 e2.target = true := by
        have hcm := importLoop_complete (ghOf args hashFn gameWalk) readFS
          (dictValues (classifyAll w.store (ghOf args hashFn gameWalk) es).from_game)
          w.store [] (by rw [himp]) e2 hv
        rw [himp] at hcm
        exact hcm
      have hsha : e2.sha256 = e.sha256 := hpf e2 he2 e he hp2
      have ht : e.target = e2.target := by
        rw [(hwf e he).1, (hwf e2 he2).1, hsha]
      rw [ht]
      exact fetchLoop_store_mono _ _ _ _ _ h1
  | fromWeb =>
    have hkey := classifyAll_mem_key w.store (ghOf args hashFn gameWalk) es e he
    rw [hc] at hkey
    cases hq : alookup ((classifyAll w.store (ghOf args hashFn gameWalk) es).proj
        SourceClass.fromWeb) e.path with
    | none => rw [hq] at hkey; exact Bool.noConfusion hkey
    | some e2 =>
      obtain ⟨he2, _, hp2⟩ :=
        classifyAll_lookup_char w.store (ghOf args hashFn gameWalk) es _ _ e2 hq
      have hv : e2 ∈ dictValues
          ((classifyAll w.store (ghOf args hashFn gameWalk) es).from_web) :=
        alookup_mem_values _ _ hq
      have h2 := fetchLoop_complete args.remote_url remote
        (dictValues ((classifyAll w.store (ghOf args hashFn gameWalk) es)).from_web)
        st1 [] e2 hv
      have hsha : e2.sha256 = e.sha256 := hpf e2 he2 e he hp2
      have ht : e.target = e2.target := by
        rw [(hwf e he).1, (hwf e2 he2).1, hsha]
      rw [ht]
      exact h2

/-! ### Example inputs -/

/-- The example manifest of the spec (hashes abbreviated to "aa11"/"bb22"). -/
def exampleLines : List JObj :=
  [[("path", JVal.jstr "Bundles2/a.bin"), ("sha256", JVal.jstr "aa11"),
    ("size", JVal.jnum 10)],
   [("path", JVal.jstr "Bundles2/b.bin"), ("sha256", JVal.jstr "aa11"),
    ("size", JVal.jnum 10)],
   [("path", JVal.jstr "Bundles2/c.bin"), ("sha256", JVal.jstr "bb22"),
    ("size", JVal.jnum 5)]]

/-! ### Claims -/

/-- C1: in any run, each hash triggers at most one import or one fetch in
total (after the first write for a hash places the store file, the
per-entry exists-check makes every later entry with that hash a no-op);
and in the spec's example scenario (three entries, two sharing hash
"aa11", empty store, no local index) exactly 2 remote fetches occur, 3
links exist afterwards, and a.bin and b.bin link to the same store file. -/
theorem claim_C1_dedup :
    (∀ (args : StageArgs) (hashFn : Bytes → String)
      (gameWalk : List (String × Bytes)) (readFS : String → Option Bytes)
      (remote : String → Bytes) (hl : Bool) (lines : List JObj) (w : World)
      (r : StageResult),
      stage args hashFn gameWalk readFS remote hl lines w = StageOutcome.ok r →
      ∀ sha : String,
        List.count sha r.imported + List.count sha (r.fetched.map Prod.fst) ≤ 1) ∧
    (∃ r : StageResult,
      stage ⟨"http://r", "/r", 1, none⟩ (fun _ => "") [] (fun _ => none)
        (fun _ => [0]) false exampleLines ⟨[], []⟩ = StageOutcome.ok r ∧
      r.fetched.map Prod.fst = ["aa11", "bb22"] ∧
      r.world.links.length = 3 ∧
      (alookup r.world.links (linkName "/r" 1 "Bundles2/a.bin")).map FsLink.target
        = (alookup r.world.links (linkName "/r" 1 "Bundles2/b.bin")).map
            FsLink.target) := by
  constructor
  · intro args hashFn gameWalk readFS remote hl lines w r h sha
    obtain ⟨es, st1, imported, links1, hre, himp, hlk, hr⟩ :=
      stage_ok_inv args hashFn gameWalk readFS remote hl lines w r h
    have hwf := readEntries_wf args.root lines es hre
    have hwf_g : ∀ e ∈ dictValues
        ((classifyAll w.store (ghOf args hashFn gameWalk) es).from_game),
        e.target = targetName args.root e.sha256 := by
      intro e hv
      have hm := classifyAll_values_char w.store (ghOf args hashFn gameWalk) es
        SourceClass.fromGame e hv
      exact (hwf e hm.1).1
    have hwf_w : ∀ e ∈ dictValues
        ((classifyAll w.store (ghOf args hashFn gameWalk) es).from_web),
        e.target = targetName args.root e.sha256 := by
      intro e hv
      have hm := classifyAll_values_char w.store (ghOf args hashFn gameWalk) es
        SourceClass.fromWeb e hv
      exact (hwf e hm.1).1
    have hfresh_i := importLoop_fresh args.root (ghOf args hashFn gameWalk) readFS
      (dictValues ((classifyAll w.store (ghOf args hashFn gameWalk) es)).from_game)
      w.store [] hwf_g (by simp) (by simp)
    rw [himp] at hfresh_i
    have hfresh_f := fetchLoop_fresh args.root args.remote_url remote
      (dictValues ((classifyAll w.store (ghOf args hashFn gameWalk) es)).from_web)
      st1 [] imported hwf_w (by simpa using hfresh_i.1)
      (by simpa using hfresh_i.2)
    have hnd : (r.imported ++ r.fetched.map Prod.fst).Nodup := by
      subst hr
      simpa using hfresh_f.1
    have hcount := List.nodup_iff_count_le_one.mp hnd sha
    simpa [List.count_append] using hcount
  · exact ⟨_, rfl, by decide, by decide, by decide⟩

/-- Closed witness for the universally quantified part of C1. -/
theorem claim_C1_dedup_witness :
    List.count "ab" ([] : List String)
      + List.count "ab" ([("ab", "http://r/poe-data/ab/ab.bin")].map Prod.fst) ≤ 1 :=
  claim_C1_dedup.1 ⟨"http://r", "/r", 1, none⟩ (fun _ => "") [] (fun _ => none)
    (fun _ => [7]) false
    [[("path", JVal.jstr "Bundles2/a"), ("sha256", JVal.jstr "ab"),
      ("size", JVal.jnum 1)]] ⟨[], []⟩
    ⟨⟨[("/r/storage/data/ab/ab.bin", [7])],
      [("/r/build/1/Bundles2/a", ⟨LinkKind.sym, "/r/storage/data/ab/ab.bin"⟩)]⟩,
     [⟨"Bundles2/a", "ab", JVal.jnum 1, "/r/storage/data/ab/ab.bin"⟩],
     [], [("ab", "http://r/poe-data/ab/ab.bin")]⟩
    (by decide) "ab"

/-- C2: classification is a total three-way choice in fixed priority order
(already-in-store iff the store file exists; else available-in-local-index
iff a local index is configured and has the hash; else must-fetch-remote),
and a hash whose store file already exists at run start is neither
imported nor fetched. -/
theorem claim_C2_partition :
    (∀ (st : Store) (gh : Option SteamHashes) (e : Entry),
      (classify st gh e = SourceClass.fromData ↔ Store.has st e.target = true) ∧
      (classify st gh e = SourceClass.fromGame ↔
        Store.has st e.target = false ∧ indexHas gh e.sha256 = true) ∧
      (classify st gh e = SourceClass.fromWeb ↔
        Store.has st e.target = false ∧ indexHas gh e.sha256 = false)) ∧
    (∀ (args : StageArgs) (hashFn : Bytes → String)
      (gameWalk : List (String × Bytes)) (readFS : String → Option Bytes)
      (remote : String → Bytes) (hl : Bool) (lines : List JObj) (w : World)
      (r : StageResult) (sha : String),
      stage args hashFn gameWalk readFS remote hl lines w = StageOutcome.ok r →
      Store.has w.store (targetName args.root sha) = true →
      sha ∉ r.imported ∧ sha ∉ r.fetched.map Prod.fst) := by
  constructor
  · intro st gh e
    exact ⟨classify_fromData_iff st gh e, classify_fromGame_iff st gh e,
      classify_fromWeb_iff st gh e⟩
  · intro args hashFn gameWalk readFS remote hl lines w r sha h hhas
    obtain ⟨es, st1, imported, links1, hre, himp, hlk, hr⟩ :=
      stage_ok_inv args hashFn gameWalk readFS remote hl lines w r h
    have hwf := readEntries_wf args.root lines es hre
    subst hr
    constructor
    · intro hmem
      have hmem' : sha ∈ (importLoop (ghOf args hashFn gameWalk) readFS
          (dictValues (classifyAll w.store (ghOf args hashFn gameWalk) es).from_game)
          w.store []).2.1 := by
        rw [himp]
        exact hmem
      rcases importLoop_prov (ghOf args hashFn gameWalk) readFS
        (dictValues (classifyAll w.store (ghOf args hashFn gameWalk) es).from_game)
        w.store [] hmem' with h0 | ⟨e, hev, hse, hsf⟩
      · simp at h0
      · have hes := classifyAll_values_char w.store (ghOf args hashFn gameWalk) es
          SourceClass.fromGame e hev
        have ht := (hwf e hes.1).1
        rw [ht, ← hse] at hsf
        rw [hhas] at hsf
        exact Bool.noConfusion hsf
    · intro hmem
      obtain ⟨pr, hpr, hpr1⟩ := List.mem_map.mp hmem
      rcases fetchLoop_prov args.remote_url remote
        (dictValues (classifyAll w.store (ghOf args hashFn gameWalk) es).from_web)
        st1 [] hpr with h0 | ⟨e, hev, hpe, hsf⟩
      · simp at h0
      · have hes := classifyAll_values_char w.store (ghOf args hashFn gameWalk) es
          SourceClass.fromWeb e hev
        have ht := (hwf e hes.1).1
        have hse : e.sha256 = sha := by
          rw [hpe] at hpr1
          exact hpr1
        have hw0 : Store.has w.store e.target = false := by
          cases hb : Store.has w.store e.target
          · rfl
          · have hm := importLoop_store_mono (ghOf args hashFn gameWalk) readFS
              (dictValues (classifyAll w.store (ghOf args hashFn gameWalk) es).from_game)
              w.store [] hb
            rw [himp] at hm
            rw [hm] at hsf
            exact Bool.noConfusion hsf
        rw [ht, hse] at hw0
        rw [hhas] at hw0
        exact Bool.noConfusion hw0

/-- C9: all filtered manifest entries sharing a `sha256` receive the same
classification, because classification is evaluated per entry against the
pre-run store (imports and fetches happen only in the later loops), and a
dict member's classification agrees with `classify` of that shared store. -/
theorem claim_C9_uniform_class :
    (∀ (args : StageArgs) (hashFn : Bytes → String)
      (gameWalk : List (String × Bytes)) (lines : List JObj) (w : World)
      (es : List Entry),
      readEntries args.root lines = Except.ok es →
      ∀ e1 ∈ es, ∀ e2 ∈ es, e1.sha256 = e2.sha256 →
        classify w.store (ghOf args hashFn gameWalk) e1
          = classify w.store (ghOf args hashFn gameWalk) e2) ∧
    (∀ (st : Store) (gh : Option SteamHashes) (es : List Entry)
      (c : SourceClass) (v : Entry),
      v ∈ dictValues ((classifyAll st gh es).proj c) → classify st gh v = c) := by
  constructor
  · intro args hashFn gameWalk lines w es hre e1 h1 e2 h2 hsha
    have hwf := readEntries_wf args.root lines es hre
    have ht : e1.target = e2.target := by
      rw [(hwf e1 h1).1, (hwf e2 h2).1, hsha]
    unfold classify
    rw [ht, hsha]
  · intro st gh es c v hv
    exact (classifyAll_values_char st gh es c v hv).2

/-- Closed witness for C2: a hash present in both the store and the local
index is neither imported nor fetched. -/
theorem claim_C2_partition_witness :
    "ab" ∉ ([] : List String) ∧
      "ab" ∉ ([] : List (String × String)).map Prod.fst :=
  claim_C2_partition.2 ⟨"http://r", "/r", 1, some "/g"⟩
    (fun b => if b = [1] then "ab" else "zz") [("Bundles2/f", [1])]
    (fun _ => none) (fun _ => [7]) false
    [[("path", JVal.jstr "Bundles2/a"), ("sha256", JVal.jstr "ab"),
      ("size", JVal.jnum 1)]]
    ⟨[("/r/storage/data/ab/ab.bin", [9])], []⟩
    ⟨⟨[("/r/storage/data/ab/ab.bin", [9])],
      [("/r/build/1/Bundles2/a", ⟨LinkKind.sym, "/r/storage/data/ab/ab.bin"⟩)]⟩,
     [⟨"Bundles2/a", "ab", JVal.jnum 1, "/r/storage/data/ab/ab.bin"⟩],
     [], []⟩ "ab" (by decide) (by decide)

/-- Closed witness for C9: the two entries sharing hash "aa11" in the
example manifest classify identically against an empty store. -/
theorem claim_C9_uniform_class_witness :
    classify [] (ghOf ⟨"http://r", "/r", 1, none⟩ (fun _ => "") [])
        ⟨"Bundles2/a.bin", "aa11", JVal.jnum 10, "/r/storage/data/aa/aa11.bin"⟩
      = classify [] (ghOf ⟨"http://r", "/r", 1, none⟩ (fun _ => "") [])
        ⟨"Bundles2/b.bin", "aa11", JVal.jnum 10, "/r/storage/data/aa/aa11.bin"⟩ :=
  claim_C9_uniform_class.1 ⟨"http://r", "/r", 1, none⟩ (fun _ => "") []
    exampleLines ⟨[], []⟩
    [⟨"Bundles2/a.bin", "aa11", JVal.jnum 10, "/r/storage/data/aa/aa11.bin"⟩,
     ⟨"Bundles2/b.bin", "aa11", JVal.jnum 10, "/r/storage/data/aa/aa11.bin"⟩,
     ⟨"Bundles2/c.bin", "bb22", JVal.jnum 5, "/r/storage/data/bb/bb22.bin"⟩]
    rfl
    ⟨"Bundles2/a.bin", "aa11", JVal.jnum 10, "/r/storage/data/aa/aa11.bin"⟩
    (by decide)
    ⟨"Bundles2/b.bin", "aa11", JVal.jnum 10, "/r/storage/data/aa/aa11.bin"⟩
    (by decide) (by decide)

/-- C10: the local-index scan records for each hash a game-dir-relative
path whose scanned contents hashed to that hash, and the Importer writes
to the store for each imported hash exactly the bytes read back from
`game_dir` joined with that recorded path (assuming the external tree is
unchanged between scan and import). -/
theorem claim_C10_import_source :
    (∀ (hashFn : Bytes → String) (gd : String) (walk : List (String × Bytes))
      (H p : String),
      alookup (steamHashesInit hashFn gd walk).path_by_hash H = some p →
      ∃ b, (p, b) ∈ walk ∧ hashFn b = H) ∧
    (∀ (args : StageArgs) (hashFn : Bytes → String)
      (gameWalk : List (String × Bytes)) (readFS : String → Option Bytes)
      (remote : String → Bytes) (hl : Bool) (lines : List JObj) (w : World)
      (r : StageResult) (gd : String),
      args.game_root = some gd →
      stage args hashFn gameWalk readFS remote hl lines w = StageOutcome.ok r →
      (∀ pb ∈ gameWalk, readFS (gd ++ "/" ++ pb.1) = some pb.2) →
      ∀ H ∈ r.imported, ∃ p b,
        alookup (steamHashesInit hashFn gd gameWalk).path_by_hash H = some p ∧
        readFS (gd ++ "/" ++ p) = some b ∧ hashFn b = H ∧
        alookup r.world.store (targetName args.root H) = some b) := by
  constructor
  · intro hashFn gd walk H p h
    exact steamHashes_sound hashFn gd walk H p h
  · intro args hashFn gameWalk readFS remote hl lines w r gd hgr h hunch H hH
    obtain ⟨es, st1, imported, links1, hre, himp, hlk, hr⟩ :=
      stage_ok_inv args hashFn gameWalk readFS remote hl lines w r h
    have hwf := readEntries_wf args.root lines es hre
    have hgh : ghOf args hashFn gameWalk
        = some (steamHashesInit hashFn gd gameWalk) := by
      simp [ghOf, hgr]
    rw [hgh] at himp
    have hwf_g : ∀ e ∈ dictValues
        ((classifyAll w.store (some (steamHashesInit hashFn gd gameWalk))
          es).from_game),
        e.target = targetName args.root e.sha256 := by
      intro e hv
      have hm := classifyAll_values_char w.store
        (some (steamHashesInit hashFn gd gameWalk)) es SourceClass.fromGame e hv
      exact (hwf e hm.1).1
    subst hr
    have hmem' : H ∈ (importLoop (some (steamHashesInit hashFn gd gameWalk)) readFS
        (dictValues (classifyAll w.store (some (steamHashesInit hashFn gd gameWalk))
          es).from_game)
        w.store []).2.1 := by
      rw [himp]
      exact hH
    obtain ⟨p, b, hp, hrd, hl1⟩ := importLoop_reads args.root
      (steamHashesInit hashFn gd gameWalk) readFS
      (dictValues (classifyAll w.store (some (steamHashesInit hashFn gd gameWalk))
        es).from_game)
      w.store [] hwf_g (by intro s hs; simp at hs) H hmem'
    have hgd : (steamHashesInit hashFn gd gameWalk).game_dir = gd := rfl
    rw [hgd] at hrd
    rw [himp] at hl1
    obtain ⟨b', hbw, hbh⟩ :=
      steamHashes_sound hashFn gd gameWalk H p hp
    have hrd' : readFS (gd ++ "/" ++ p) = some b' := hunch (p, b') hbw
    have hbb : b = b' := by
      rw [hrd'] at hrd
      exact (Option.some.inj hrd).symm
    refine ⟨p, b, hp, hrd, by rw [hbb]; exact hbh, ?_⟩
    exact fetchLoop_content args.remote_url remote
      (dictValues (classifyAll w.store (ghOf args hashFn gameWalk) es).from_web)
      st1 [] hl1

/-- Closed witness for C10 at a one-file game tree. -/
theorem claim_C10_import_source_witness :
    ∃ p b,
      alookup (steamHashesInit (fun b' => if b' = [1, 2] then "ab" else "zz") "/g"
        [("Bundles2/f", [1, 2])]).path_by_hash "ab" = some p ∧
      (fun s => if s = "/g/Bundles2/f" then some [1, 2] else none) ("/g" ++ "/" ++ p)
        = some b ∧
      (fun b' => if b' = [1, 2] then "ab" else "zz") b = "ab" ∧
      alookup ([("/r/storage/data/ab/ab.bin", [1, 2])] : Store)
        (targetName "/r" "ab") = some b :=
  claim_C10_import_source.2 ⟨"http://r", "/r", 1, some "/g"⟩
    (fun b' => if b' = [1, 2] then "ab" else "zz") [("Bundles2/f", [1, 2])]
    (fun s => if s = "/g/Bundles2/f" then some [1, 2] else none)
    (fun _ => [7]) false
    [[("path", JVal.jstr "Bundles2/a"), ("sha256", JVal.jstr "ab"),
      ("size", JVal.jnum 1)]]
    ⟨[], []⟩
    ⟨⟨[("/r/storage/data/ab/ab.bin", [1, 2])],
      [("/r/build/1/Bundles2/a", ⟨LinkKind.sym, "/r/storage/data/ab/ab.bin"⟩)]⟩,
     [⟨"Bundles2/a", "ab", JVal.jnum 1, "/r/storage/data/ab/ab.bin"⟩],
     ["ab"], []⟩
    "/g" rfl (by decide) (by decide) "ab" (by decide)

theorem stage_allhas_noop (args : StageArgs) (hashFn : Bytes → String)
    (gameWalk : List (String × Bytes)) (readFS : String → Option Bytes)
    (remote : String → Bytes) (hl : Bool) (lines : List JObj) (w : World)
    (es : List Entry)
    (hre : readEntries args.root lines = Except.ok es)
    (hpres : ∀ e ∈ es, Store.has w.store e.target = true)
    (hlk : linkLoop hl args.root args.build w.store es w.links = (w.links, none)) :
    stage args hashFn gameWalk readFS remote hl lines w
      = StageOutcome.ok ⟨w, es, [], []⟩ := by
  have hga : (classifyAll w.store (ghOf args hashFn gameWalk) es).from_game
      = [] := by
    have hc := (classifyAll_allhas w.store (ghOf args hashFn gameWalk) es
      ⟨[], [], []⟩ hpres).1
    simpa [classifyAll] using hc
  have hwa : (classifyAll w.store (ghOf args hashFn gameWalk) es).from_web
      = [] := by
    have hc := (classifyAll_allhas w.store (ghOf args hashFn gameWalk) es
      ⟨[], [], []⟩ hpres).2
    simpa [classifyAll] using hc
  unfold stage
  rw [hre]
  dsimp only
  rw [hga, hwa]
  dsimp only [dictValues, List.map]
  rw [show importLoop (ghOf args hashFn gameWalk) readFS [] w.store []
    = (w.store, [], none) from rfl]
  dsimp only
  rw [show fetchLoop args.remote_url remote [] w.store [] = (w.store, []) from rfl]
  dsimp only
  rw [hlk]

/-- C4 (amended): provided no two manifest entries share a logical path
with different hashes, a second run against the identical manifest and the
world produced by a successful first run succeeds, performs no imports and
no fetches, and leaves the store and the build tree unchanged. -/
theorem claim_C4_idempotent :
    ∀ (args : StageArgs) (hashFn : Bytes → String)
      (gameWalk : List (String × Bytes)) (readFS : String → Option Bytes)
      (remote : String → Bytes) (hl : Bool) (lines : List JObj) (w : World)
      (r1 : StageResult),
      stage args hashFn gameWalk readFS remote hl lines w = StageOutcome.ok r1 →
      (∀ e1 ∈ r1.entries, ∀ e2 ∈ r1.entries, e1.path = e2.path →
        e1.sha256 = e2.sha256) →
      stage args hashFn gameWalk readFS remote hl lines r1.world
        = StageOutcome.ok ⟨r1.world, r1.entries, [], []⟩ := by
  intro args hashFn gameWalk readFS remote hl lines w r1 h hpf
  have hpres := stage_ok_targets_present args hashFn gameWalk readFS remote hl
    lines w r1 h hpf
  obtain ⟨es, st1, imported, links1, hre, himp, hlk, hr⟩ :=
    stage_ok_inv args hashFn gameWalk readFS remote hl lines w r1 h
  have hidem := linkLoop_idem hl args.root args.build
    (fetchLoop args.remote_url remote
      (dictValues (classifyAll w.store (ghOf args hashFn gameWalk) es).from_web)
      st1 []).1 es w.links links1 hlk
  subst hr
  exact stage_allhas_noop args hashFn gameWalk readFS remote hl lines
    ⟨(fetchLoop args.remote_url remote
      (dictValues (classifyAll w.store (ghOf args hashFn gameWalk) es).from_web)
      st1 []).1, links1⟩ es hre hpres hidem

/-- The duplicate-path manifest: two entries at logical path "Bundles2/p"
with different hashes. -/
def dupLines : List JObj :=
  [[("path", JVal.jstr "Bundles2/p"), ("sha256", JVal.jstr "aa11"),
    ("size", JVal.jnum 1)],
   [("path", JVal.jstr "Bundles2/p"), ("sha256", JVal.jstr "bb22"),
    ("size", JVal.jnum 1)]]

/-- Counterexample to C4 as stated: with two entries sharing a logical
path but not a hash, the second run against the first run's world performs
a new fetch and changes the store. -/
theorem claim_C4_counterexample :
    ∃ r1 r2,
      stage ⟨"http://r", "/r", 1, none⟩ (fun _ => "") [] (fun _ => none)
        (fun _ => [0]) false dupLines ⟨[], []⟩ = StageOutcome.ok r1 ∧
      stage ⟨"http://r", "/r", 1, none⟩ (fun _ => "") [] (fun _ => none)
        (fun _ => [0]) false dupLines r1.world = StageOutcome.ok r2 ∧
      r2.fetched ≠ [] ∧ r2.world.store ≠ r1.world.store := by
  exact ⟨_, _, rfl, rfl, by decide, by decide⟩

/-- Closed witness for C4 on a one-entry manifest. -/
theorem claim_C4_idempotent_witness :
    stage ⟨"http://r", "/r", 1, none⟩ (fun _ => "") [] (fun _ => none)
        (fun _ => [7]) false
        [[("path", JVal.jstr "Bundles2/a"), ("sha256", JVal.jstr "ab"),
          ("size", JVal.jnum 1)]]
        (⟨⟨[("/r/storage/data/ab/ab.bin", [7])],
          [("/r/build/1/Bundles2/a",
            ⟨LinkKind.sym, "/r/storage/data/ab/ab.bin"⟩)]⟩,
         [⟨"Bundles2/a", "ab", JVal.jnum 1, "/r/storage/data/ab/ab.bin"⟩],
         [], [("ab", "http://r/poe-data/ab/ab.bin")]⟩ : StageResult).world
      = StageOutcome.ok
        ⟨(⟨⟨[("/r/storage/data/ab/ab.bin", [7])],
          [("/r/build/1/Bundles2/a",
            ⟨LinkKind.sym, "/r/storage/data/ab/ab.bin"⟩)]⟩,
         [⟨"Bundles2/a", "ab", JVal.jnum 1, "/r/storage/data/ab/ab.bin"⟩],
         [], [("ab", "http://r/poe-data/ab/ab.bin")]⟩ : StageResult).world,
        (⟨⟨[("/r/storage/data/ab/ab.bin", [7])],
          [("/r/build/1/Bundles2/a",
            ⟨LinkKind.sym, "/r/storage/data/ab/ab.bin"⟩)]⟩,
         [⟨"Bundles2/a", "ab", JVal.jnum 1, "/r/storage/data/ab/ab.bin"⟩],
         [], [("ab", "http://r/poe-data/ab/ab.bin")]⟩ : StageResult).entries,
        [], []⟩ :=
  claim_C4_idempotent ⟨"http://r", "/r", 1, none⟩ (fun _ => "") [] (fun _ => none)
    (fun _ => [7]) false
    [[("path", JVal.jstr "Bundles2/a"), ("sha256", JVal.jstr "ab"),
      ("size", JVal.jnum 1)]]
    ⟨[], []⟩
    ⟨⟨[("/r/storage/data/ab/ab.bin", [7])],
      [("/r/build/1/Bundles2/a", ⟨LinkKind.sym, "/r/storage/data/ab/ab.bin"⟩)]⟩,
     [⟨"Bundles2/a", "ab", JVal.jnum 1, "/r/storage/data/ab/ab.bin"⟩],
     [], [("ab", "http://r/poe-data/ab/ab.bin")]⟩
    (by decide) (by decide)

/-- Counterexample to C3 as stated: a run over the duplicate-path manifest
succeeds with no error of any kind, although at linking time the hash
"aa11" has no store file; in symlink mode the linker silently creates a
link to that nonexistent store path instead of failing. -/
theorem claim_C3_counterexample :
    ∃ r, stage ⟨"http://r", "/r", 1, none⟩ (fun _ => "") [] (fun _ => none)
        (fun _ => [0]) false dupLines ⟨[], []⟩ = StageOutcome.ok r ∧
      Store.has r.world.store (targetName "/r" "aa11") = false ∧
      alookup r.world.links (linkName "/r" 1 "Bundles2/p")
        = some ⟨LinkKind.sym, targetName "/r" "aa11"⟩ := by
  exact ⟨_, rfl, by decide, by decide⟩

/-- C3 (amended): the Tree Linker performs no per-hash presence check and
no `MissingContentError` exists: in symlink mode the linking loop never
fails and an entry whose link path is free gets a symlink to the store
path whether or not the store file exists; in hardlink mode an entry whose
hash has no store file fails with an OS-level filesystem error instead. -/
theorem claim_C3_linker :
    (∀ (root : String) (build : Nat) (st : Store) (es : List Entry)
      (links : Links), (linkLoop false root build st es links).2 = none) ∧
    (∀ (root : String) (build : Nat) (st : Store) (links : Links) (e : Entry),
      alookup links (linkName root build e.path) = none →
      linkStep false root build st links e = Except.ok
        (ainsert links (linkName root build e.path)
          ⟨LinkKind.sym, targetName root e.sha256⟩)) ∧
    (∀ (root : String) (build : Nat) (st : Store) (links : Links) (e : Entry),
      alookup links (linkName root build e.path) = none →
      Store.has st (targetName root e.sha256) = false →
      linkStep true root build st links e
        = Except.error PipelineError.filesystemError) :=
  ⟨fun root build st es links => linkLoop_sym_ok root build st es links,
   fun root build st links e h => linkStep_create_sym root build st links e h,
   fun root build st links e h1 h2 => linkStep_hard_error root build st links e h1 h2⟩

/-- Closed witness for C3 (amended) at a concrete entry and empty store. -/
theorem claim_C3_linker_witness :
    (linkLoop false "/r" 1 []
      [⟨"Bundles2/x", "cc", JVal.jnum 1, targetName "/r" "cc"⟩] []).2 = none ∧
    linkStep false "/r" 1 [] [] ⟨"Bundles2/x", "cc", JVal.jnum 1,
        targetName "/r" "cc"⟩
      = Except.ok (ainsert [] (linkName "/r" 1 "Bundles2/x")
          ⟨LinkKind.sym, targetName "/r" "cc"⟩) ∧
    linkStep true "/r" 1 [] [] ⟨"Bundles2/x", "cc", JVal.jnum 1,
        targetName "/r" "cc"⟩
      = Except.error PipelineError.filesystemError :=
  ⟨claim_C3_linker.1 "/r" 1 []
      [⟨"Bundles2/x", "cc", JVal.jnum 1, targetName "/r" "cc"⟩] [],
   claim_C3_linker.2.1 "/r" 1 [] []
      ⟨"Bundles2/x", "cc", JVal.jnum 1, targetName "/r" "cc"⟩ rfl,
   claim_C3_linker.2.2 "/r" 1 [] []
      ⟨"Bundles2/x", "cc", JVal.jnum 1, targetName "/r" "cc"⟩ rfl rfl⟩

/-- C5: a manifest line is turned into a processed entry iff its path
field is a string with the fixed prefix "Bundles2" (and its other fields
decode); a line whose path lacks the prefix is skipped, and such a line
contributes nothing at all to the rest of the pipeline. -/
theorem claim_C5_filter :
    (∀ (root : String) (obj : JObj),
      decodeLine root obj = Except.ok none ↔
        ∃ p, alookup obj "path" = some (JVal.jstr p) ∧
          strStartsWith p "Bundles2" = false) ∧
    (∀ (root : String) (lines : List JObj) (es : List Entry),
      readEntries root lines = Except.ok es →
      ∀ e ∈ es, strStartsWith e.path "Bundles2" = true) ∧
    (∀ (root : String) (obj : JObj) (p sha : String) (size : JVal),
      alookup obj "path" = some (JVal.jstr p) →
      strStartsWith p "Bundles2" = true →
      alookup obj "sha256" = some (JVal.jstr sha) →
      alookup obj "size" = some size →
      decodeLine root obj = Except.ok (some
        { path := p, sha256 := sha, size := size,
          target := targetName root sha })) ∧
    (∀ (args : StageArgs) (hashFn : Bytes → String)
      (gameWalk : List (String × Bytes)) (readFS : String → Option Bytes)
      (remote : String → Bytes) (hl : Bool) (obj : JObj) (rest : List JObj)
      (w : World),
      decodeLine args.root obj = Except.ok none →
      stage args hashFn gameWalk readFS remote hl (obj :: rest) w
        = stage args hashFn gameWalk readFS remote hl rest w) :=
  ⟨decodeLine_ok_none_iff,
   fun root lines es h e he => (readEntries_wf root lines es h e he).2,
   decodeLine_include,
   stage_skip_line⟩

/-- Closed witness for C5 at concrete lines. -/
theorem claim_C5_filter_witness :
    (decodeLine "/r" [("path", JVal.jstr "Other/x")] = Except.ok none ↔
      ∃ p, alookup [("path", JVal.jstr "Other/x")] "path"
          = some (JVal.jstr p) ∧ strStartsWith p "Bundles2" = false) ∧
    strStartsWith "Bundles2/a" "Bundles2" = true ∧
    decodeLine "/r" [("path", JVal.jstr "Bundles2/a"),
        ("sha256", JVal.jstr "ab"), ("size", JVal.jnum 1)]
      = Except.ok (some
        { path := "Bundles2/a", sha256 := "ab", size := JVal.jnum 1,
          target := targetName "/r" "ab" }) ∧
    stage ⟨"http://r", "/r", 1, none⟩ (fun _ => "") [] (fun _ => none)
        (fun _ => [7]) false [[("path", JVal.jstr "Other/x")]] ⟨[], []⟩
      = stage ⟨"http://r", "/r", 1, none⟩ (fun _ => "") [] (fun _ => none)
        (fun _ => [7]) false [] ⟨[], []⟩ :=
  ⟨claim_C5_filter.1 "/r" [("path", JVal.jstr "Other/x")],
   claim_C5_filter.2.1 "/r"
     [[("path", JVal.jstr "Bundles2/a"), ("sha256", JVal.jstr "ab"),
       ("size", JVal.jnum 1)]]
     [⟨"Bundles2/a", "ab", JVal.jnum 1, targetName "/r" "ab"⟩] rfl
     ⟨"Bundles2/a", "ab", JVal.jnum 1, targetName "/r" "ab"⟩ (by decide),
   claim_C5_filter.2.2.1 "/r"
     [("path", JVal.jstr "Bundles2/a"), ("sha256", JVal.jstr "ab"),
      ("size", JVal.jnum 1)] "Bundles2/a" "ab" (JVal.jnum 1)
     rfl (by decide) rfl rfl,
   claim_C5_filter.2.2.2 ⟨"http://r", "/r", 1, none⟩ (fun _ => "") []
     (fun _ => none) (fun _ => [7]) false [("path", JVal.jstr "Other/x")] []
     ⟨[], []⟩ rfl⟩

/-- Counterexample to C6 as stated: with a relative root the created
symlink's target is the store path as derived from the root argument,
which is not an absolute path. -/
theorem claim_C6_counterexample :
    ∃ r, stage ⟨"http://r", "r", 1, none⟩ (fun _ => "") [] (fun _ => none)
        (fun _ => [7]) false
        [[("path", JVal.jstr "Bundles2/a"), ("sha256", JVal.jstr "ab"),
          ("size", JVal.jnum 1)]] ⟨[], []⟩ = StageOutcome.ok r ∧
      alookup r.world.links (linkName "r" 1 "Bundles2/a")
        = some ⟨LinkKind.sym, targetName "r" "ab"⟩ ∧
      isAbsolutePath (targetName "r" "ab") = false := by
  exact ⟨_, rfl, by decide, by decide⟩

/-- C6 (amended): in symlink mode, an entry whose link path has no
filesystem entry (checked without following symlinks) gets a symlink whose
target is the store path for its hash as derived from the configured root
(absolute whenever the root is absolute); if any entry, even a broken
symlink, already exists at the link path, no action is taken. -/
theorem claim_C6_symlink :
    (∀ (root : String) (build : Nat) (st : Store) (links : Links) (e : Entry),
      alookup links (linkName root build e.path) = none →
      linkStep false root build st links e = Except.ok
        (ainsert links (linkName root build e.path)
          ⟨LinkKind.sym, targetName root e.sha256⟩)) ∧
    (∀ (root : String) (build : Nat) (st : Store) (links : Links) (e : Entry)
      (l : FsLink),
      alookup links (linkName root build e.path) = some l →
      linkStep false root build st links e = Except.ok links) ∧
    (∀ (root sha : String), isAbsolutePath root = true →
      isAbsolutePath (targetName root sha) = true) :=
  ⟨fun root build st links e h => linkStep_create_sym root build st links e h,
   fun root build st links e l h => linkStep_skip_sym root build st links e l h,
   targetName_abs⟩

/-- Closed witness for C6 (amended): creation at a free link path, skip at
an occupied one (here a broken symlink), and absoluteness transfer. -/
theorem claim_C6_symlink_witness :
    linkStep false "/r" 1 [] [] ⟨"Bundles2/x", "cc", JVal.jnum 1,
        targetName "/r" "cc"⟩
      = Except.ok (ainsert [] (linkName "/r" 1 "Bundles2/x")
          ⟨LinkKind.sym, targetName "/r" "cc"⟩) ∧
    linkStep false "/r" 1 []
        [(linkName "/r" 1 "Bundles2/x", ⟨LinkKind.sym, "/dead"⟩)]
        ⟨"Bundles2/x", "cc", JVal.jnum 1, targetName "/r" "cc"⟩
      = Except.ok [(linkName "/r" 1 "Bundles2/x", ⟨LinkKind.sym, "/dead"⟩)] ∧
    isAbsolutePath (targetName "/r" "cc") = true :=
  ⟨claim_C6_symlink.1 "/r" 1 [] []
     ⟨"Bundles2/x", "cc", JVal.jnum 1, targetName "/r" "cc"⟩ rfl,
   claim_C6_symlink.2.1 "/r" 1 []
     [(linkName "/r" 1 "Bundles2/x", ⟨LinkKind.sym, "/dead"⟩)]
     ⟨"Bundles2/x", "cc", JVal.jnum 1, targetName "/r" "cc"⟩
     ⟨LinkKind.sym, "/dead"⟩ (by decide),
   claim_C6_symlink.2.2 "/r" "cc" (by decide)⟩

/-- Counterexample to C7 as stated: the remote content URL's path segment
is "poe-data", not "data" as the claim's URL template has it; the run
requests `<remote>/poe-data/ab/ab.bin` for hash "ab". -/
theorem claim_C7_counterexample :
    (∃ r, stage ⟨"http://r", "/r", 1, none⟩ (fun _ => "") [] (fun _ => none)
        (fun _ => [7]) false
        [[("path", JVal.jstr "Bundles2/a"), ("sha256", JVal.jstr "ab"),
          ("size", JVal.jnum 1)]] ⟨[], []⟩ = StageOutcome.ok r ∧
      r.fetched = [("ab", "http://r/poe-data/ab/ab.bin")]) ∧
    fetchUrl "http://r" "ab" ≠ specDataUrl "http://r" "ab" := by
  constructor
  · exact ⟨_, rfl, by decide⟩
  · decide

/-- C7 (amended): every fetch the run performs requests exactly
`<remote>/poe-data/<first-2-hex-of-hash>/<hash>.bin`, and the response
bytes of that request are what the store file for the hash holds at the
end of the run. -/
theorem claim_C7_fetch :
    ∀ (args : StageArgs) (hashFn : Bytes → String)
      (gameWalk : List (String × Bytes)) (readFS : String → Option Bytes)
      (remote : String → Bytes) (hl : Bool) (lines : List JObj) (w : World)
      (r : StageResult),
      stage args hashFn gameWalk readFS remote hl lines w = StageOutcome.ok r →
      ∀ pr ∈ r.fetched, pr.2 = fetchUrl args.remote_url pr.1 ∧
        alookup r.world.store (targetName args.root pr.1)
          = some (remote pr.2) := by
  intro args hashFn gameWalk readFS remote hl lines w r h pr hpr
  obtain ⟨es, st1, imported, links1, hre, himp, hlk, hr⟩ :=
    stage_ok_inv args hashFn gameWalk readFS remote hl lines w r h
  have hwf := readEntries_wf args.root lines es hre
  have hwf_w : ∀ e ∈ dictValues
      ((classifyAll w.store (ghOf args hashFn gameWalk) es).from_web),
      e.target = targetName args.root e.sha256 := by
    intro e hv
    have hm := classifyAll_values_char w.store (ghOf args hashFn gameWalk) es
      SourceClass.fromWeb e hv
    exact (hwf e hm.1).1
  subst hr
  constructor
  · rcases fetchLoop_prov args.remote_url remote
      (dictValues (classifyAll w.store (ghOf args hashFn gameWalk) es).from_web)
      st1 [] hpr with h0 | ⟨e, _, hpe, _⟩
    · simp at h0
    · rw [hpe]
  · exact fetchLoop_written args.root args.remote_url remote
      (dictValues (classifyAll w.store (ghOf args hashFn gameWalk) es).from_web)
      st1 [] hwf_w (by intro x hx; simp at hx) pr hpr

/-- Closed witness for C7 (amended) at a one-entry manifest. -/
theorem claim_C7_fetch_witness :
    "http://r/poe-data/ab/ab.bin" = fetchUrl "http://r" "ab" ∧
      alookup ([("/r/storage/data/ab/ab.bin", [7])] : Store)
        (targetName "/r" "ab") = some [7] :=
  claim_C7_fetch ⟨"http://r", "/r", 1, none⟩ (fun _ => "") [] (fun _ => none)
    (fun _ => [7]) false
    [[("path", JVal.jstr "Bundles2/a"), ("sha256", JVal.jstr "ab"),
      ("size", JVal.jnum 1)]]
    ⟨[], []⟩
    ⟨⟨[("/r/storage/data/ab/ab.bin", [7])],
      [("/r/build/1/Bundles2/a", ⟨LinkKind.sym, "/r/storage/data/ab/ab.bin"⟩)]⟩,
     [⟨"Bundles2/a", "ab", JVal.jnum 1, "/r/storage/data/ab/ab.bin"⟩],
     [], [("ab", "http://r/poe-data/ab/ab.bin")]⟩
    (by decide) ("ab", "http://r/poe-data/ab/ab.bin") (by decide)

/-- Counterexample to C8 as stated: a manifest line that lacks the
required sha256 and size fields but whose path falls outside Bundles2 is
silently skipped — the run succeeds and changes nothing instead of
failing with ManifestFormatError. -/
theorem claim_C8_counterexample :
    stage ⟨"http://r", "/r", 1, none⟩ (fun _ => "") [] (fun _ => none)
        (fun _ => [7]) false [[("path", JVal.jstr "Other/x")]] ⟨[], []⟩
      = StageOutcome.ok ⟨⟨[], []⟩, [], [], []⟩ ∧
    alookup ([("path", JVal.jstr "Other/x")] : JObj) "sha256" = none :=
  ⟨rfl, rfl⟩

/-- C8 (amended): a line whose path field is missing, or whose
Bundles2-prefixed path lacks a sha256 field, raises ManifestFormatError;
the first such line aborts the whole run during enumeration, before any
store write, leaving the world exactly as it was.  (Lines filtered out by
the path prefix are skipped without any field validation.) -/
theorem claim_C8_abort :
    (∀ (args : StageArgs) (hashFn : Bytes → String)
      (gameWalk : List (String × Bytes)) (readFS : String → Option Bytes)
      (remote : String → Bytes) (hl : Bool) (lines : List JObj) (w : World)
      (err : PipelineError),
      readEntries args.root lines = Except.error err →
      stage args hashFn gameWalk readFS remote hl lines w
        = StageOutcome.fail err w) ∧
    (∀ (root : String) (obj : JObj) (rest : List JObj) (err : PipelineError),
      decodeLine root obj = Except.error err →
      readEntries root (obj :: rest) = Except.error err) ∧
    (∀ (root : String) (obj : JObj), alookup obj "path" = none →
      decodeLine root obj = Except.error PipelineError.manifestFormatError) ∧
    (∀ (root : String) (obj : JObj) (p : String),
      alookup obj "path" = some (JVal.jstr p) →
      strStartsWith p "Bundles2" = true →
      alookup obj "sha256" = none →
      decodeLine root obj = Except.error PipelineError.manifestFormatError) :=
  ⟨stage_fail_of_readError, readEntries_error_head, decodeLine_error_of_no_path,
   decodeLine_error_of_no_sha⟩

/-- Closed witness for C8 (amended): a manifest whose only line lacks the
path field aborts the run with the world untouched. -/
theorem claim_C8_abort_witness :
    stage ⟨"http://r", "/r", 1, none⟩ (fun _ => "") [] (fun _ => none)
        (fun _ => [7]) false [[("sha256", JVal.jstr "ab")]]
        ⟨[("keep", [1])], []⟩
      = StageOutcome.fail PipelineError.manifestFormatError
          ⟨[("keep", [1])], []⟩ ∧
    readEntries "/r" [[("sha256", JVal.jstr "ab")]]
      = Except.error PipelineError.manifestFormatError ∧
    decodeLine "/r" ([] : JObj)
      = Except.error PipelineError.manifestFormatError ∧
    decodeLine "/r" [("path", JVal.jstr "Bundles2/a")]
      = Except.error PipelineError.manifestFormatError :=
  ⟨claim_C8_abort.1 ⟨"http://r", "/r", 1, none⟩ (fun _ => "") [] (fun _ => none)
     (fun _ => [7]) false [[("sha256", JVal.jstr "ab")]] ⟨[("keep", [1])], []⟩
     PipelineError.manifestFormatError rfl,
   claim_C8_abort.2.1 "/r" [("sha256", JVal.jstr "ab")] []
     PipelineError.manifestFormatError rfl,
   claim_C8_abort.2.2.1 "/r" [] rfl,
   claim_C8_abort.2.2.2 "/r" [("path", JVal.jstr "Bundles2/a")] "Bundles2/a"
     rfl (by decide) rfl⟩
